import Mathlib

/-!
Verification development for the go-scdb storage engine.

The Go sources are shallowly embedded: Go byte slices become `List Nat`
(each element a byte value), the data file becomes a `List Nat` of bytes,
unsigned machine integers become `Nat` (with an explicit `% 2^w` at the
spots where the Go code converts or where a wrap can reach a comparison),
and fallible Go functions return `Except Err`.  Stateful methods of
`BufferPool` / `InvertedIndex` / `Store` become functions that take and
return the corresponding state structure.
-/

set_option autoImplicit false
set_option maxRecDepth 10000
set_option linter.unusedVariables false

namespace Scdb

/-- Error taxonomy of the core (scdb/errors/errors.go), plus `sliceFault`
for a Go runtime slice-range panic, `ioEOF` for a short read that the Go
code propagates as an I/O error, and `badWalk` for the non-terminating /
corrupt-data walks that the Go code guards with ad-hoc break conditions. -/
inductive Err where
  | outOfBounds (msg : String)
  | collisionSaturation (key : List Nat)
  | capabilityDisabled (op : String)
  | sliceFault
  | ioEOF
  | badWalk
  deriving Repr, DecidableEq

/-- Discriminator for ErrOutOfBounds, independent of its message text. -/
def Err.isOutOfBounds : Err → Bool
  | .outOfBounds _ => true
  | _ => false

/-- An ErrOutOfBounds outcome of a fallible computation, whatever its
message text. -/
def isOutOfBoundsResult {α : Type} : Except Err α → Bool
  | .error e => e.isOutOfBounds
  | .ok _ => false

deriving instance DecidableEq for Except

/-- 2^16, the modulus of Go's uint16. -/
def U16 : Nat := 2 ^ 16

/-- 2^32, the modulus of Go's uint32. -/
def U32 : Nat := 2 ^ 32

/-- 2^64, the modulus of Go's uint64. -/
def U64 : Nat := 2 ^ 64

/-- Go uint32 subtraction (wraps below zero), used where the source
subtracts sizes (`size - keySize - MinSize`). -/
def u32sub (a b : Nat) : Nat := (a + U32 - b % U32) % U32

/-- Uint16ToByteArray (internal/utils.go): big-endian bytes of a uint16. -/
def Uint16ToByteArray (v : Nat) : List Nat :=
  [v / 2 ^ 8 % 256, v % 256]

/-- Uint32ToByteArray (internal/utils.go): big-endian bytes of a uint32. -/
def Uint32ToByteArray (v : Nat) : List Nat :=
  [v / 2 ^ 24 % 256, v / 2 ^ 16 % 256, v / 2 ^ 8 % 256, v % 256]

/-- Uint64ToByteArray (internal/utils.go): big-endian bytes of a uint64. -/
def Uint64ToByteArray (v : Nat) : List Nat :=
  [v / 2 ^ 56 % 256, v / 2 ^ 48 % 256, v / 2 ^ 40 % 256, v / 2 ^ 32 % 256,
   v / 2 ^ 24 % 256, v / 2 ^ 16 % 256, v / 2 ^ 8 % 256, v % 256]

/-- Big-endian accumulation of byte values (each taken mod 256, since Go
bytes are uint8 by construction). -/
def beVal (l : List Nat) : Nat :=
  l.foldl (fun acc b => acc * 256 + b % 256) 0

/-- Uint32FromByteArray (internal/utils.go): errors when fewer than 4
bytes are supplied, else decodes the first 4 big-endian. -/
def Uint32FromByteArray (v : List Nat) : Except Err Nat :=
  if v.length < 4 then .error (.outOfBounds "expected 4 bytes")
  else .ok (beVal (v.take 4))

/-- Uint64FromByteArray (internal/utils.go): errors when fewer than 8
bytes are supplied, else decodes the first 8 big-endian. -/
def Uint64FromByteArray (v : List Nat) : Except Err Nat :=
  if v.length < 8 then .error (.outOfBounds "expected 8 bytes")
  else .ok (beVal (v.take 8))

/-- BoolToByteArray (internal/utils.go). -/
def BoolToByteArray (v : Bool) : List Nat :=
  if v then [1] else [0]

/-- BoolFromByteArray (internal/utils.go): errors on empty input,
else true exactly when the first byte is 1. -/
def BoolFromByteArray (v : List Nat) : Except Err Bool :=
  if v.length < 1 then .error (.outOfBounds "expected 1 byte")
  else .ok (decide (v.headI = 1))

/-- SafeSlice (internal/utils.go): `data[start:end]` guarded against the
given maximum length. -/
def SafeSlice (data : List Nat) (start stop maxLength : Nat) :
    Except Err (List Nat) :=
  if start ≥ maxLength ∨ stop > maxLength then
    .error (.outOfBounds "slice out of bounds")
  else .ok ((data.drop start).take (stop - start))

/-- ValidateBounds (internal/utils.go): the actual span must lie inside
the expected span. -/
def ValidateBounds (actualLower actualUpper expectedLower expectedUpper : Nat)
    (msg : String) : Except Err Unit :=
  if actualLower < expectedLower ∨ actualUpper > expectedUpper then
    .error (.outOfBounds msg)
  else .ok ()

/-- bytes.Contains from the Go standard library: `needle` occurs as a
contiguous sub-slice of `hay`. -/
def bytesContains (hay needle : List Nat) : Bool :=
  (List.range (hay.length + 1)).any fun i =>
    decide ((hay.drop i).take needle.length = needle)

theorem bytesContains_eq_of_length_eq (a k : List Nat) (h : a.length = k.length) :
    bytesContains a k = decide (a = k) := by
  unfold bytesContains
  rcases eq_or_ne a k with rfl | hne
  · rw [decide_eq_true (p := a = a) rfl, List.any_eq_true]
    refine ⟨0, by simp, ?_⟩
    rw [decide_eq_true_eq, List.drop_zero, List.take_of_length_le h.le]
  · rw [decide_eq_false hne, List.any_eq_false]
    intro i _
    simp only [decide_eq_true_eq]
    intro hcontra
    have hlen := congrArg List.length hcontra
    rw [List.length_take, List.length_drop] at hlen
    have hkle : k.length ≤ a.length - i :=
      le_trans (Nat.le_of_eq hlen.symm) (Nat.min_le_right _ _)
    rcases Nat.eq_zero_or_pos a.length with ha | ha
    · refine hne ?_
      rw [List.length_eq_zero.mp ha, List.length_eq_zero.mp (by omega : k.length = 0)]
    · have hi : i = 0 := by omega
      subst hi
      rw [List.drop_zero, List.take_of_length_le h.le] at hcontra
      exact hne hcontra

theorem take_concat_exact (l r : List Nat) (n : Nat) (h : l.length = n) :
    (l ++ r).take n = l := by subst h; exact List.take_left l r

theorem drop_concat_exact (l r : List Nat) (n : Nat) (h : l.length = n) :
    (l ++ r).drop n = r := by subst h; simp

theorem beVal_u32 (v : Nat) : beVal (Uint32ToByteArray v) = v % U32 := by
  simp [beVal, Uint32ToByteArray, List.foldl, U32]; omega

theorem beVal_u64 (v : Nat) : beVal (Uint64ToByteArray v) = v % U64 := by
  simp [beVal, Uint64ToByteArray, List.foldl, U64]; omega

theorem Uint32From_To (v : Nat) (h : v < U32) :
    Uint32FromByteArray (Uint32ToByteArray v) = .ok v := by
  unfold Uint32FromByteArray
  rw [if_neg (by simp [Uint32ToByteArray])]
  rw [show (Uint32ToByteArray v).take 4 = Uint32ToByteArray v from
        List.take_of_length_le (by simp [Uint32ToByteArray])]
  rw [beVal_u32, Nat.mod_eq_of_lt h]

theorem Uint64From_To (v : Nat) (h : v < U64) :
    Uint64FromByteArray (Uint64ToByteArray v) = .ok v := by
  unfold Uint64FromByteArray
  rw [if_neg (by simp [Uint64ToByteArray])]
  rw [show (Uint64ToByteArray v).take 8 = Uint64ToByteArray v from
        List.take_of_length_le (by simp [Uint64ToByteArray])]
  rw [beVal_u64, Nat.mod_eq_of_lt h]

theorem BoolFrom_To (b : Bool) :
    BoolFromByteArray (BoolToByteArray b) = .ok b := by
  cases b <;> simp [BoolFromByteArray, BoolToByteArray, List.headI]

/-- Slicing a record embedded between a prefix and a suffix of the file
only sees the record, as long as the span stays inside the record. -/
theorem slice_concat (pre rec post : List Nat) (a n : Nat) (h : a + n ≤ rec.length) :
    ((pre ++ rec ++ post).drop (pre.length + a)).take n = (rec.drop a).take n := by
  rw [List.append_assoc, List.drop_append a,
      List.drop_append_of_le_length (by omega),
      List.take_append_of_le_length (by rw [List.length_drop]; omega)]

theorem SafeSlice_concat (pre rec post : List Nat) (a b : Nat) (hab : a ≤ b)
    (hb : b ≤ rec.length) (hstart : a < rec.length + post.length) :
    SafeSlice (pre ++ rec ++ post) (pre.length + a) (pre.length + b)
      (pre ++ rec ++ post).length = .ok ((rec.drop a).take (b - a)) := by
  unfold SafeSlice
  rw [if_neg (by simp [List.length_append]; omega)]
  have h1 : pre.length + b - (pre.length + a) = b - a := by omega
  rw [h1, slice_concat pre rec post a (b - a) (by omega)]

/-! ### Key-value entries (internal/entries/values, key-value record) -/

/-- Fixed overhead of a key-value record: size (4) + key-size (4) +
expiry (8) + is-deleted (1). -/
def KeyValueMinSizeInBytes : Nat := 4 + 4 + 8 + 1

/-- Offset of the key bytes inside a serialized key-value record
(after the two 4-byte size fields). -/
def OffsetForKeyInKVArray : Nat := 8

structure KeyValueEntry where
  Size : Nat
  KeySize : Nat
  Key : List Nat
  Expiry : Nat
  IsDeleted : Bool
  Value : List Nat
  deriving Repr, DecidableEq

/-- NewKeyValueEntry: the size fields are computed in uint32 arithmetic. -/
def NewKeyValueEntry (key value : List Nat) (expiry : Nat) : KeyValueEntry :=
  let keySize := key.length % U32
  { Size := (keySize + KeyValueMinSizeInBytes + value.length % U32) % U32
    KeySize := keySize
    Key := key
    Expiry := expiry
    IsDeleted := false
    Value := value }

/-- KeyValueEntry.AsBytes: size, key-size, key, is-deleted, expiry, value. -/
def KeyValueEntry.AsBytes (kv : KeyValueEntry) : List Nat :=
  Uint32ToByteArray kv.Size ++ Uint32ToByteArray kv.KeySize ++ kv.Key ++
    BoolToByteArray kv.IsDeleted ++ Uint64ToByteArray kv.Expiry ++ kv.Value

/-- IsExpired for a stored expiry at the current unix time `now`:
0 means never expires. -/
def IsExpired (expiry now : Nat) : Bool :=
  if expiry = 0 then false else decide (expiry < now)

/-- ExtractKeyValueEntryFromByteArray: parses a key-value record at
`offset`; the value size is recovered by uint32 subtraction from the
total-size field. -/
def ExtractKeyValueEntryFromByteArray (data : List Nat) (offset : Nat) :
    Except Err KeyValueEntry := do
  let dataLength := data.length
  let sizeSlice ← SafeSlice data offset (offset + 4) dataLength
  let size ← Uint32FromByteArray sizeSlice
  let keySizeSlice ← SafeSlice data (offset + 4) (offset + 8) dataLength
  let keySize ← Uint32FromByteArray keySizeSlice
  let key ← SafeSlice data (offset + 8) (offset + 8 + keySize) dataLength
  let isDeletedSlice ← SafeSlice data (offset + 8 + keySize) (offset + 9 + keySize) dataLength
  let isDeleted ← BoolFromByteArray isDeletedSlice
  let expirySlice ← SafeSlice data (offset + 9 + keySize) (offset + keySize + 17) dataLength
  let expiry ← Uint64FromByteArray expirySlice
  let valueSize := u32sub (u32sub size keySize) KeyValueMinSizeInBytes
  let value ← SafeSlice data (offset + keySize + 17) (offset + keySize + 17 + valueSize) dataLength
  return { Size := size, KeySize := keySize, Key := key, Expiry := expiry,
           IsDeleted := isDeleted, Value := value }

/-- Well-formed serialized key-value entry: the stored size fields are the
canonical ones and everything fits its machine width. -/
def KVWF (e : KeyValueEntry) : Prop :=
  e.KeySize = e.Key.length ∧
  e.Size = 17 + e.Key.length + e.Value.length ∧
  17 + e.Key.length + e.Value.length < U32 ∧
  e.Expiry < U64

theorem KeyValueEntry.length_asBytes (e : KeyValueEntry) :
    e.AsBytes.length = 17 + e.Key.length + e.Value.length := by
  simp [KeyValueEntry.AsBytes, Uint32ToByteArray, Uint64ToByteArray, BoolToByteArray]
  cases e.IsDeleted <;> simp <;> omega

theorem extract_kv_concat (pre post : List Nat) (e : KeyValueEntry) (hwf : KVWF e)
    (hnz : 0 < e.Value.length + post.length) :
    ExtractKeyValueEntryFromByteArray (pre ++ e.AsBytes ++ post) pre.length = .ok e := by
  obtain ⟨hks, hsz, hlt, hexp⟩ := hwf
  have hlen := e.length_asBytes
  set k := e.KeySize with hk
  have hkk : e.Key.length = k := hks.symm
  set rec := e.AsBytes with hrecdef
  set data := pre ++ rec ++ post with hdata
  have hflag : (BoolToByteArray e.IsDeleted).length = 1 := by
    cases e.IsDeleted <;> rfl
  have split0 : rec = Uint32ToByteArray e.Size ++ (Uint32ToByteArray e.KeySize ++ (e.Key ++
      (BoolToByteArray e.IsDeleted ++ (Uint64ToByteArray e.Expiry ++ e.Value)))) := by
    simp [hrecdef, KeyValueEntry.AsBytes]
  have splitA : rec = (Uint32ToByteArray e.Size ++ Uint32ToByteArray e.KeySize) ++ (e.Key ++
      (BoolToByteArray e.IsDeleted ++ (Uint64ToByteArray e.Expiry ++ e.Value))) := by
    simp [hrecdef, KeyValueEntry.AsBytes]
  have splitB : rec = ((Uint32ToByteArray e.Size ++ Uint32ToByteArray e.KeySize) ++ e.Key) ++
      (BoolToByteArray e.IsDeleted ++ (Uint64ToByteArray e.Expiry ++ e.Value)) := by
    simp [hrecdef, KeyValueEntry.AsBytes]
  have splitC : rec = (((Uint32ToByteArray e.Size ++ Uint32ToByteArray e.KeySize) ++ e.Key)
      ++ BoolToByteArray e.IsDeleted) ++ (Uint64ToByteArray e.Expiry ++ e.Value) := by
    simp [hrecdef, KeyValueEntry.AsBytes]
  have splitD : rec = ((((Uint32ToByteArray e.Size ++ Uint32ToByteArray e.KeySize) ++ e.Key)
      ++ BoolToByteArray e.IsDeleted) ++ Uint64ToByteArray e.Expiry) ++ e.Value := by
    simp [hrecdef, KeyValueEntry.AsBytes]
  have s1 : SafeSlice data pre.length (pre.length + 4) data.length
      = .ok (Uint32ToByteArray e.Size) := by
    have h0 : pre.length = pre.length + 0 := by omega
    rw [h0, SafeSlice_concat pre rec post 0 4 (by omega) (by omega) (by omega)]
    rw [List.drop_zero, split0, take_concat_exact _ _ _ (by rfl)]
  have s2 : SafeSlice data (pre.length + 4) (pre.length + 8) data.length
      = .ok (Uint32ToByteArray e.KeySize) := by
    rw [SafeSlice_concat pre rec post 4 8 (by omega) (by omega) (by omega)]
    rw [split0, drop_concat_exact (Uint32ToByteArray e.Size) _ 4 (by rfl),
        show (8 : Nat) - 4 = 4 from rfl, take_concat_exact _ _ _ (by rfl)]
  have s3 : SafeSlice data (pre.length + 8) (pre.length + 8 + k) data.length
      = .ok e.Key := by
    have a1 : pre.length + 8 + k = pre.length + (8 + k) := by omega
    rw [a1, SafeSlice_concat pre rec post 8 (8 + k) (by omega) (by omega) (by omega)]
    rw [splitA, drop_concat_exact (Uint32ToByteArray e.Size ++ Uint32ToByteArray e.KeySize) _ 8
          (by rfl),
        show 8 + k - 8 = k from by omega, take_concat_exact _ _ _ hkk]
  have s4 : SafeSlice data (pre.length + 8 + k) (pre.length + 9 + k) data.length
      = .ok (BoolToByteArray e.IsDeleted) := by
    have a1 : pre.length + 8 + k = pre.length + (8 + k) := by omega
    have a2 : pre.length + 9 + k = pre.length + (9 + k) := by omega
    rw [a1, a2, SafeSlice_concat pre rec post (8 + k) (9 + k) (by omega) (by omega) (by omega)]
    rw [splitB, drop_concat_exact _ _ (8 + k) (by simp [Uint32ToByteArray]; omega),
        show 9 + k - (8 + k) = 1 from by omega, take_concat_exact _ _ _ hflag]
  have s5 : SafeSlice data (pre.length + 9 + k) (pre.length + k + 17) data.length
      = .ok (Uint64ToByteArray e.Expiry) := by
    have a1 : pre.length + 9 + k = pre.length + (9 + k) := by omega
    have a2 : pre.length + k + 17 = pre.length + (9 + k + 8) := by omega
    rw [a1, a2, SafeSlice_concat pre rec post (9 + k) (9 + k + 8) (by omega) (by omega) (by omega)]
    rw [splitC, drop_concat_exact _ _ (9 + k) (by simp [Uint32ToByteArray]; omega),
        show 9 + k + 8 - (9 + k) = 8 from by omega, take_concat_exact _ _ _ (by rfl)]
  have hvs : u32sub (u32sub e.Size k) KeyValueMinSizeInBytes = e.Value.length := by
    simp only [u32sub, KeyValueMinSizeInBytes, U32] at *
    omega
  have s6 : SafeSlice data (pre.length + k + 17) (pre.length + k + 17 + e.Value.length)
      data.length = .ok e.Value := by
    have a2 : pre.length + k + 17 + e.Value.length
        = pre.length + (17 + k + e.Value.length) := by omega
    have a1 : pre.length + k + 17 = pre.length + (17 + k) := by omega
    rw [a2, a1, SafeSlice_concat pre rec post (17 + k) (17 + k + e.Value.length)
      (by omega) (by omega) (by omega)]
    rw [splitD, drop_concat_exact _ _ (17 + k) (by simp [Uint32ToByteArray, Uint64ToByteArray]; omega),
        show 17 + k + e.Value.length - (17 + k) = e.Value.length from by omega,
        List.take_of_length_le (le_refl _)]
  simp only [ExtractKeyValueEntryFromByteArray]
  rw [s1]
  simp only [Bind.bind, Except.bind]
  rw [Uint32From_To e.Size (by omega)]
  simp only [Bind.bind, Except.bind]
  rw [s2]
  simp only [Bind.bind, Except.bind]
  rw [Uint32From_To e.KeySize (by omega)]
  simp only [Bind.bind, Except.bind]
  rw [s3]
  simp only [Bind.bind, Except.bind]
  rw [s4]
  simp only [Bind.bind, Except.bind]
  rw [BoolFrom_To]
  simp only [Bind.bind, Except.bind]
  rw [s5]
  simp only [Bind.bind, Except.bind]
  rw [Uint64From_To e.Expiry hexp]
  simp only [Bind.bind, Except.bind]
  rw [hvs, s6]
  simp only [Bind.bind, Except.bind, pure, Except.pure]

/-! ### Inverted-index entries (internal/entries/values/inverted_index_entry.go) -/

/-- Fixed overhead of an inverted-index record: size (4) +
index-key-size (4) + is-deleted (1) + is-root (1) + expiry (8) +
next-offset (8) + previous-offset (8) + kv-address (8). -/
def InvertedIndexEntryMinSizeInBytes : Nat := 4 + 4 + 1 + 1 + 8 + 8 + 8 + 8

structure InvertedIndexEntry where
  Size : Nat
  IndexKeySize : Nat
  IndexKey : List Nat
  Key : List Nat
  IsDeleted : Bool
  IsRoot : Bool
  Expiry : Nat
  NextOffset : Nat
  PreviousOffset : Nat
  KvAddress : Nat
  deriving Repr, DecidableEq

/-- NewInvertedIndexEntry: size fields in uint32 arithmetic. -/
def NewInvertedIndexEntry (indexKey key : List Nat) (expiry : Nat) (isRoot : Bool)
    (kvAddr nextOffset previousOffset : Nat) : InvertedIndexEntry :=
  let keySize := key.length % U32
  let indexKeySize := indexKey.length % U32
  { Size := (keySize + indexKeySize + InvertedIndexEntryMinSizeInBytes) % U32
    IndexKeySize := indexKeySize
    IndexKey := indexKey
    Key := key
    IsDeleted := false
    IsRoot := isRoot
    Expiry := expiry
    NextOffset := nextOffset
    PreviousOffset := previousOffset
    KvAddress := kvAddr }

/-- InvertedIndexEntry.AsBytes: size, index-key-size, index-key, key,
is-deleted, is-root, expiry, next-offset, previous-offset, kv-address. -/
def InvertedIndexEntry.AsBytes (e : InvertedIndexEntry) : List Nat :=
  Uint32ToByteArray e.Size ++ Uint32ToByteArray e.IndexKeySize ++ e.IndexKey ++
    e.Key ++ BoolToByteArray e.IsDeleted ++ BoolToByteArray e.IsRoot ++
    Uint64ToByteArray e.Expiry ++ Uint64ToByteArray e.NextOffset ++
    Uint64ToByteArray e.PreviousOffset ++ Uint64ToByteArray e.KvAddress

theorem Uint32From_To_append (v : Nat) (rest : List Nat) :
    Uint32FromByteArray (Uint32ToByteArray v ++ rest) = .ok (v % U32) := by
  unfold Uint32FromByteArray
  rw [if_neg (by simp [Uint32ToByteArray])]
  rw [take_concat_exact _ _ _ (by simp [Uint32ToByteArray]), beVal_u32]

theorem InvertedIndexEntry.length_asBytes_inverted (e : InvertedIndexEntry) :
    e.AsBytes.length = 42 + e.IndexKey.length + e.Key.length := by
  simp [InvertedIndexEntry.AsBytes, Uint32ToByteArray, Uint64ToByteArray, BoolToByteArray]
  cases e.IsDeleted <;> cases e.IsRoot <;> simp <;> omega

/-! ### Association-list helpers for the record-level file views -/

/-- First-match association lookup. -/
def lookupA {β : Type} : List (Nat × β) → Nat → Option β
  | [], _ => none
  | (k', v) :: rest, k => if k' = k then some v else lookupA rest k

/-- Remove every binding of a key. -/
def eraseA {β : Type} (l : List (Nat × β)) (k : Nat) : List (Nat × β) :=
  l.filter fun p => p.1 ≠ k

/-- Insert-or-replace a binding (keeps keys unique). -/
def putA {β : Type} (l : List (Nat × β)) (k : Nat) (v : β) : List (Nat × β) :=
  (k, v) :: eraseA l k

theorem lookupA_putA_same {β : Type} (l : List (Nat × β)) (k : Nat) (v : β) :
    lookupA (putA l k v) k = some v := by
  simp [putA, lookupA]

theorem eraseA_cons_self {β : Type} (pk : Nat) (pv : β) (rest : List (Nat × β)) :
    eraseA ((pk, pv) :: rest) pk = eraseA rest pk := by
  simp [eraseA]

theorem eraseA_cons_ne {β : Type} (pk : Nat) (pv : β) (rest : List (Nat × β))
    (k : Nat) (h : pk ≠ k) : eraseA ((pk, pv) :: rest) k = (pk, pv) :: eraseA rest k := by
  simp [eraseA, h]

theorem lookupA_eraseA {β : Type} (l : List (Nat × β)) (k k' : Nat) (h : k ≠ k') :
    lookupA (eraseA l k) k' = lookupA l k' := by
  induction l with
  | nil => rfl
  | cons p rest ih =>
    obtain ⟨pk, pv⟩ := p
    by_cases hp : pk = k
    · subst hp
      rw [eraseA_cons_self, ih]
      simp only [lookupA]
      rw [if_neg h]
    · rw [eraseA_cons_ne _ _ _ _ hp]
      simp only [lookupA]
      by_cases hk' : pk = k'
      · rw [if_pos hk', if_pos hk']
      · rw [if_neg hk', if_neg hk', ih]

theorem lookupA_putA_ne {β : Type} (l : List (Nat × β)) (k k' : Nat) (v : β)
    (h : k ≠ k') : lookupA (putA l k v) k' = lookupA l k' := by
  simp only [putA, lookupA, if_neg h]
  exact lookupA_eraseA l k k' h

/-! ### Inverted index, record-level model
(internal/inverted_index/inverted_index.go)

The index file is modelled at the granularity at which the Go code reads
and writes it: an 8-byte slot region (`slots`, keyed by slot offset, a
missing binding standing for the zero bytes of a never-written slot) and
a values region holding serialized `InvertedIndexEntry` records keyed by
their file offset (`entries`).  `readEntryBytes` followed by
`ExtractInvertedIndexEntryFromByteArray` becomes a lookup in `entries`;
`writeEntryToFile` becomes `putA`; the byte-level faithfulness of that
correspondence is backed by `InvertedIndexEntry.AsBytes` and
`InvertedIndexEntry.length_asBytes_inverted` above. -/

structure InvertedIndex where
  MaxIndexKeyLen : Nat
  ValuesStartPoint : Nat
  FileSize : Nat
  ItemsPerIndexBlock : Nat
  NumberOfIndexBlocks : Nat
  NetBlockSize : Nat
  slots : List (Nat × Nat)
  entries : List (Nat × InvertedIndexEntry)
  deriving Repr, DecidableEq

/-- GetHash (internal/hash.go): the 64-bit hash reduced modulo the block
length.  The xxhash function itself is an external dependency; it enters
the model as the parameter `hashFn`. -/
def GetHash (hashFn : List Nat → Nat) (key : List Nat) (blockLength : Nat) : Nat :=
  hashFn key % blockLength

/-- HeaderSizeInBytes (internal/entries/headers/shared.go). -/
def HeaderSizeInBytes : Nat := 100

/-- IndexEntrySizeInBytes (internal/entries/headers/shared.go). -/
def IndexEntrySizeInBytes : Nat := 8

/-- GetIndexOffsetInNthBlock (internal/entries/headers/shared.go). -/
def GetIndexOffsetInNthBlock (numberOfIndexBlocks netBlockSize initialOffset n : Nat) :
    Except Err Nat :=
  if n ≥ numberOfIndexBlocks then .error (.outOfBounds "block out of bounds")
  else .ok (initialOffset + netBlockSize * n)

/-- GetIndexOffset for the inverted-index header. -/
def InvertedIndex.getIndexOffset (idx : InvertedIndex) (hashFn : List Nat → Nat)
    (key : List Nat) : Nat :=
  HeaderSizeInBytes + GetHash hashFn key idx.ItemsPerIndexBlock * IndexEntrySizeInBytes

/-- readEntryAddress: bounds-checks the slot offset against the index
region, then reads the 8-byte slot (absent binding = zero bytes). -/
def InvertedIndex.readEntryAddress (idx : InvertedIndex) (addr : Nat) :
    Except Err Nat := do
  let _ ← ValidateBounds addr (addr + IndexEntrySizeInBytes) HeaderSizeInBytes
    idx.ValuesStartPoint "entry address out of bound"
  return (lookupA idx.slots addr).getD 0

/-- addrBelongsToPrefix (the Go name ends in a reserved word, hence the
rename): false when the address is at or past the file size, else the
stored index-key-size and index-key at that address are compared with
the probed index key. -/
def InvertedIndex.addrBelongsToIndexKey (idx : InvertedIndex) (address : Nat)
    (pfx : List Nat) : Bool :=
  if address ≥ idx.FileSize then false
  else
    match lookupA idx.entries address with
    | some e => decide (e.IndexKeySize = pfx.length % U32) && decide (e.IndexKey = pfx)
    | none => false

/-- appendNewRootEntry: writes a fresh root record (next = prev = its own
address) at the end of the file and points the slot at it. -/
def InvertedIndex.appendNewRootEntry (idx : InvertedIndex) (pfx : List Nat)
    (indexOffset : Nat) (key : List Nat) (kvAddr expiry : Nat) : InvertedIndex :=
  let newAddr := idx.FileSize
  let entry := NewInvertedIndexEntry pfx key expiry true kvAddr newAddr newAddr
  { idx with
    entries := putA idx.entries newAddr entry
    slots := putA idx.slots indexOffset newAddr
    FileSize := newAddr + entry.AsBytes.length }

/-- upsertEntry: walks the cyclic list from the root; updates the node
for `key` in place, or appends a new tail node (next = root, prev = old
tail) patching old-tail.next and root.prev.  The unbounded Go `for` loop
is modelled with explicit `fuel`; running out returns `badWalk` (the Go
code would keep reading). -/
def InvertedIndex.upsertEntry (idx : InvertedIndex) (pfx : List Nat)
    (rootAddr : Nat) (key : List Nat) (kvAddr expiry : Nat) :
    Nat → Nat → Except Err Unit × InvertedIndex
  | _, 0 => (.error .badWalk, idx)
  | addr, fuel + 1 =>
    match lookupA idx.entries addr with
    | none => (.error .badWalk, idx)
    | some e =>
      if e.Key = key then
        (.ok (), { idx with
          entries := putA idx.entries addr { e with KvAddress := kvAddr, Expiry := expiry } })
      else if e.NextOffset = rootAddr then
        let newAddr := idx.FileSize
        let newEntry := NewInvertedIndexEntry pfx key expiry false kvAddr rootAddr addr
        let entries1 := putA idx.entries newAddr newEntry
        let entries2 := putA entries1 addr { e with NextOffset := newAddr }
        match lookupA entries2 rootAddr with
        | none => (.error .badWalk, { idx with entries := entries2 })
        | some rootEntry =>
          let entries3 := putA entries2 rootAddr { rootEntry with PreviousOffset := newAddr }
          (.ok (), { idx with
            entries := entries3
            FileSize := newAddr + newEntry.AsBytes.length })
      else
        let addr' := e.NextOffset
        if addr' = rootAddr ∨ addr' = 0 then (.ok (), idx)
        else idx.upsertEntry pfx rootAddr key kvAddr expiry addr' fuel

/-- One probe sequence of Add for a single prefix: find the slot whose
record has this index key (or a free slot), then root-append or upsert;
exhausting `NumberOfIndexBlocks` probes fails with CollisionSaturation. -/
def InvertedIndex.addForIndexKey (idx : InvertedIndex) (hashFn : List Nat → Nat)
    (pfx key : List Nat) (kvAddr expiry : Nat) :
    Nat → Nat → Except Err Unit × InvertedIndex
  | _, 0 => (.error .badWalk, idx)
  | indexBlock, remaining + 1 =>
    let initial := idx.getIndexOffset hashFn pfx
    match GetIndexOffsetInNthBlock idx.NumberOfIndexBlocks idx.NetBlockSize initial
        indexBlock with
    | .error e => (.error e, idx)
    | .ok indexOffset =>
      match idx.readEntryAddress indexOffset with
      | .error e => (.error e, idx)
      | .ok addr =>
        if addr = 0 then
          (.ok (), idx.appendNewRootEntry pfx indexOffset key kvAddr expiry)
        else if idx.addrBelongsToIndexKey addr pfx then
          idx.upsertEntry pfx addr key kvAddr expiry addr (idx.entries.length + 1)
        else if indexBlock + 1 ≥ idx.NumberOfIndexBlocks then
          (.error (.collisionSaturation pfx), idx)
        else
          idx.addForIndexKey hashFn pfx key kvAddr expiry (indexBlock + 1) remaining

/-- Inner loop of Add over the prefix lengths `1 .. min (len key)
MaxIndexKeyLen`; an error aborts the remaining prefixes but keeps the
mutations already made (as the Go code does). -/
def InvertedIndex.addLoop (idx : InvertedIndex) (hashFn : List Nat → Nat)
    (key : List Nat) (kvAddr expiry : Nat) :
    Nat → Nat → Except Err Unit × InvertedIndex
  | _, 0 => (.ok (), idx)
  | i, count + 1 =>
    let pfx := key.take i
    match idx.addForIndexKey hashFn pfx key kvAddr expiry 0 (idx.NumberOfIndexBlocks + 1) with
    | (.error e, idx') => (.error e, idx')
    | (.ok _, idx') => idx'.addLoop hashFn key kvAddr expiry (i + 1) count

/-- InvertedIndex.Add: one probe-and-link pass per prefix length. -/
def InvertedIndex.Add (idx : InvertedIndex) (hashFn : List Nat → Nat)
    (key : List Nat) (kvAddr expiry : Nat) : Except Err Unit × InvertedIndex :=
  let upperBound := min key.length idx.MaxIndexKeyLen
  idx.addLoop hashFn key kvAddr expiry 1 upperBound

/-- InvertedIndex.Remove (inverted_index.go lines 178-181): the body is
`return nil` — it touches nothing. -/
def InvertedIndex.Remove (idx : InvertedIndex) (key : List Nat) :
    Except Err Unit × InvertedIndex :=
  (.ok (), idx)


/-- getMatchedKvAddrsForPrefix: the cyclic-list walk collecting
kv-addresses of unexpired entries whose key contains `term`, applying
skip/limit exactly as the source does (skip counts only matching
entries; the limit check runs right after a match is processed).
`fuel` bounds the unbounded Go loop. -/
def InvertedIndex.matchWalk (idx : InvertedIndex) (term : List Nat) (now : Nat)
    (rootAddr : Nat) (skip limit : Nat) :
    Nat → List Nat → Nat → Nat → Except Err (List Nat)
  | _, _, _, 0 => .error .badWalk
  | addr, acc, skipped, fuel + 1 =>
    match lookupA idx.entries addr with
    | none => .error .badWalk
    | some e =>
      let isMatch := !(IsExpired e.Expiry now) && bytesContains e.Key term
      let acc' := if isMatch then (if skipped < skip then acc else acc ++ [e.KvAddress]) else acc
      let skipped' := if isMatch && skipped < skip then skipped + 1 else skipped
      if isMatch && (0 < limit) && (limit ≤ acc'.length) then .ok acc'
      else
        let addr' := e.NextOffset
        if addr' = rootAddr ∨ addr' = 0 then .ok acc'
        else idx.matchWalk term now rootAddr skip limit addr' acc' skipped' fuel

/-- InvertedIndex.Search: resolve the probed slot for the term's prefix,
then walk the cyclic list.  A zero slot or exhausted probes return an
empty result. -/
def InvertedIndex.Search (idx : InvertedIndex) (hashFn : List Nat → Nat)
    (term : List Nat) (skip limit : Nat) (now : Nat) :
    Nat → Nat → Except Err (List Nat)
  | _, 0 => .ok []
  | indexBlock, remaining + 1 =>
    let pfxLen := min term.length idx.MaxIndexKeyLen
    let pfx := term.take pfxLen
    let initial := idx.getIndexOffset hashFn pfx
    match GetIndexOffsetInNthBlock idx.NumberOfIndexBlocks idx.NetBlockSize initial
        indexBlock with
    | .error e => .error e
    | .ok indexOffset =>
      match idx.readEntryAddress indexOffset with
      | .error e => .error e
      | .ok addr =>
        if addr = 0 then .ok []
        else if idx.addrBelongsToIndexKey addr pfx then
          idx.matchWalk term now addr skip limit addr [] 0 (idx.entries.length + 1)
        else
          idx.Search hashFn term skip limit now (indexBlock + 1) remaining

/-- Top-level Search starting at probe block 0. -/
def InvertedIndex.searchFrom (idx : InvertedIndex) (hashFn : List Nat → Nat)
    (term : List Nat) (skip limit : Nat) (now : Nat) : Except Err (List Nat) :=
  idx.Search hashFn term skip limit now 0 idx.NumberOfIndexBlocks

/-- NewInvertedIndex on a fresh file: derived header fields as
updateDerivedProps computes them, an initialized (all-zero) slot region
and an empty values region; the file size is the values start point. -/
def NewInvertedIndexModel (maxKeys redundantBlocks blockSize maxIndexKeyLen : Nat) :
    InvertedIndex :=
  let items := blockSize / IndexEntrySizeInBytes
  let num := (maxKeys + items - 1) / items + redundantBlocks
  let net := items * IndexEntrySizeInBytes
  let valuesStart := HeaderSizeInBytes + net * num
  { MaxIndexKeyLen := maxIndexKeyLen
    ValuesStartPoint := valuesStart
    FileSize := valuesStart
    ItemsPerIndexBlock := items
    NumberOfIndexBlocks := num
    NetBlockSize := net
    slots := []
    entries := [] }


/-! ### The doubly-linked cyclic-list invariant (C7) -/

/-- The record stored at a given file offset. -/
def entryAt (idx : InvertedIndex) (a : Nat) : Option InvertedIndexEntry :=
  lookupA idx.entries a

/-- Every entry address lies below the file size (entries are only ever
written at the then-current end of file). -/
def BoundedEntries (idx : InvertedIndex) : Prop :=
  ∀ a e, entryAt idx a = some e → a < idx.FileSize

/-- The cyclic invariant of the per-prefix lists: following next and then
prev (or prev and then next) returns to the node. -/
def CyclicInv (idx : InvertedIndex) : Prop :=
  ∀ a e, entryAt idx a = some e →
    (∃ en, entryAt idx e.NextOffset = some en ∧ en.PreviousOffset = a) ∧
    (∃ ep, entryAt idx e.PreviousOffset = some ep ∧ ep.NextOffset = a)

def IdxInv (idx : InvertedIndex) : Prop :=
  BoundedEntries idx ∧ CyclicInv idx

theorem asBytes_length_pos (e : InvertedIndexEntry) : 0 < e.AsBytes.length := by
  rw [InvertedIndexEntry.length_asBytes_inverted]; omega

theorem appendNewRootEntry_FileSize (idx : InvertedIndex) (pfx key : List Nat)
    (indexOffset kvAddr expiry : Nat) :
    (idx.appendNewRootEntry pfx indexOffset key kvAddr expiry).FileSize
      = idx.FileSize + (NewInvertedIndexEntry pfx key expiry true kvAddr idx.FileSize
          idx.FileSize).AsBytes.length := rfl

theorem inv_appendNewRootEntry (idx : InvertedIndex) (pfx key : List Nat)
    (indexOffset kvAddr expiry : Nat) (h : IdxInv idx) :
    IdxInv (idx.appendNewRootEntry pfx indexOffset key kvAddr expiry) := by
  obtain ⟨hb, hc⟩ := h
  set A := idx.FileSize with hA
  set newE := NewInvertedIndexEntry pfx key expiry true kvAddr A A with hnewE
  have hlen : 0 < newE.AsBytes.length := asBytes_length_pos newE
  have hup : ∀ a, a ≠ A →
      entryAt (idx.appendNewRootEntry pfx indexOffset key kvAddr expiry) a = entryAt idx a := by
    intro a ha
    simp only [entryAt, InvertedIndex.appendNewRootEntry]
    exact lookupA_putA_ne _ _ _ _ (fun hAa => ha hAa.symm)
  have hself : entryAt (idx.appendNewRootEntry pfx indexOffset key kvAddr expiry) A
      = some newE := by
    simp only [entryAt, InvertedIndex.appendNewRootEntry]
    exact lookupA_putA_same _ _ _
  constructor
  · intro a e he
    rw [appendNewRootEntry_FileSize]
    have hlen2 : 0 < (NewInvertedIndexEntry pfx key expiry true kvAddr idx.FileSize
        idx.FileSize).AsBytes.length := asBytes_length_pos _
    by_cases ha : a = A
    · subst ha
      omega
    · rw [hup a ha] at he
      have := hb a e he
      omega
  · intro a e he
    by_cases ha : a = A
    · subst ha
      rw [hself] at he
      cases he
      have hnext : newE.NextOffset = A := rfl
      have hprev : newE.PreviousOffset = A := rfl
      constructor
      · exact ⟨newE, by rw [hnext, hself], hprev⟩
      · exact ⟨newE, by rw [hprev, hself], hnext⟩
    · rw [hup a ha] at he
      obtain ⟨⟨en, hen, henp⟩, ⟨ep, hep, hepn⟩⟩ := hc a e he
      have hnA : e.NextOffset ≠ A := fun hcontra => by
        have := hb _ _ hen; omega
      have hpA : e.PreviousOffset ≠ A := fun hcontra => by
        have := hb _ _ hep; omega
      exact ⟨⟨en, by rw [hup _ hnA]; exact hen, henp⟩,
             ⟨ep, by rw [hup _ hpA]; exact hep, hepn⟩⟩



/-- The three record writes of the append-tail branch of upsertEntry
preserve the invariant when the walk's current node (the old tail) and
the root are distinct. -/
theorem inv_upsert_append_distinct (idx : InvertedIndex) (addr rootAddr len : Nat)
    (e en newE : InvertedIndexEntry)
    (hinv : IdxInv idx)
    (he : entryAt idx addr = some e)
    (hen : entryAt idx rootAddr = some en)
    (henp : en.PreviousOffset = addr)
    (hnext : e.NextOffset = rootAddr)
    (hAR : addr ≠ rootAddr)
    (hnN : newE.NextOffset = rootAddr)
    (hpN : newE.PreviousOffset = addr)
    (hlen : 0 < len) :
    IdxInv { idx with
      entries := putA (putA (putA idx.entries idx.FileSize newE) addr
        { e with NextOffset := idx.FileSize }) rootAddr
        { en with PreviousOffset := idx.FileSize }
      FileSize := idx.FileSize + len } := by
  obtain ⟨hb, hc⟩ := hinv
  have hbN : ∀ b eb, entryAt idx b = some eb → b ≠ idx.FileSize := by
    intro b eb hbe
    have := hb b eb hbe; omega
  have haddrN : addr ≠ idx.FileSize := hbN _ _ he
  have hrootN : rootAddr ≠ idx.FileSize := hbN _ _ hen
  have hdesc : ∀ x, lookupA (putA (putA (putA idx.entries idx.FileSize newE) addr
      { e with NextOffset := idx.FileSize }) rootAddr
      { en with PreviousOffset := idx.FileSize }) x
      = if x = rootAddr then some { en with PreviousOffset := idx.FileSize }
        else if x = addr then some { e with NextOffset := idx.FileSize }
        else if x = idx.FileSize then some newE
        else entryAt idx x := by
    intro x
    by_cases h1 : x = rootAddr
    · rw [if_pos h1, h1, lookupA_putA_same]
    · rw [if_neg h1, lookupA_putA_ne _ _ _ _ (fun h2 => h1 h2.symm)]
      by_cases h2 : x = addr
      · rw [if_pos h2, h2, lookupA_putA_same]
      · rw [if_neg h2, lookupA_putA_ne _ _ _ _ (fun h3 => h2 h3.symm)]
        by_cases h3 : x = idx.FileSize
        · rw [if_pos h3, h3, lookupA_putA_same]
        · rw [if_neg h3, lookupA_putA_ne _ _ _ _ (fun h4 => h3 h4.symm)]
          rfl
  constructor
  · intro a e' he'
    simp only [entryAt] at he'
    rw [hdesc] at he'
    simp only
    by_cases h1 : a = rootAddr
    · rw [h1]; have := hb _ _ hen; omega
    · rw [if_neg h1] at he'
      by_cases h2 : a = addr
      · rw [h2]; have := hb _ _ he; omega
      · rw [if_neg h2] at he'
        by_cases h3 : a = idx.FileSize
        · rw [h3]; omega
        · rw [if_neg h3] at he'
          have := hb a e' he'; omega
  · intro a e' he'
    simp only [entryAt] at he' ⊢
    rw [hdesc] at he'
    by_cases h1 : a = rootAddr
    · rw [if_pos h1] at he'
      cases he'
      obtain ⟨⟨x, hx, hxp⟩, _⟩ := hc rootAddr en hen
      constructor
      · show ∃ q, lookupA _ en.NextOffset = some q ∧ q.PreviousOffset = a
        by_cases hxa : en.NextOffset = rootAddr
        · rw [hxa, hen] at hx
          cases hx
          exact absurd (henp ▸ hxp : addr = rootAddr) hAR
        · by_cases hxb : en.NextOffset = addr
          · rw [hxb, he] at hx
            cases hx
            refine ⟨{ e with NextOffset := idx.FileSize }, ?_, ?_⟩
            · rw [hdesc, if_neg hxa, if_pos hxb]
            · show e.PreviousOffset = a
              rw [h1]; exact hxp
          · refine ⟨x, ?_, by rw [h1]; exact hxp⟩
            rw [hdesc, if_neg hxa, if_neg hxb, if_neg (hbN _ _ hx)]
            exact hx
      · show ∃ q, lookupA _ idx.FileSize = some q ∧ q.NextOffset = a
        refine ⟨newE, ?_, by rw [h1]; exact hnN⟩
        rw [hdesc, if_neg hrootN.symm, if_neg haddrN.symm, if_pos rfl]
    · rw [if_neg h1] at he'
      by_cases h2 : a = addr
      · rw [if_pos h2] at he'
        cases he'
        obtain ⟨_, ⟨y, hy, hyn⟩⟩ := hc addr e he
        constructor
        · show ∃ q, lookupA _ idx.FileSize = some q ∧ q.PreviousOffset = a
          refine ⟨newE, ?_, by rw [h2]; exact hpN⟩
          rw [hdesc, if_neg hrootN.symm, if_neg haddrN.symm, if_pos rfl]
        · show ∃ q, lookupA _ e.PreviousOffset = some q ∧ q.NextOffset = a
          by_cases hya : e.PreviousOffset = rootAddr
          · rw [hya, hen] at hy
            cases hy
            refine ⟨{ en with PreviousOffset := idx.FileSize }, ?_, ?_⟩
            · rw [hdesc, if_pos hya]
            · show en.NextOffset = a
              rw [h2]; exact hyn
          · by_cases hyb : e.PreviousOffset = addr
            · rw [hyb, he] at hy
              cases hy
              exact absurd (hnext ▸ hyn : rootAddr = addr) (Ne.symm hAR)
            · refine ⟨y, ?_, by rw [h2]; exact hyn⟩
              rw [hdesc, if_neg hya, if_neg hyb, if_neg (hbN _ _ hy)]
              exact hy
      · rw [if_neg h2] at he'
        by_cases h3 : a = idx.FileSize
        · rw [if_pos h3] at he'
          cases he'
          constructor
          · show ∃ q, lookupA _ newE.NextOffset = some q ∧ q.PreviousOffset = a
            refine ⟨{ en with PreviousOffset := idx.FileSize }, ?_, ?_⟩
            · rw [hnN, hdesc, if_pos rfl]
            · show idx.FileSize = a
              rw [h3]
          · show ∃ q, lookupA _ newE.PreviousOffset = some q ∧ q.NextOffset = a
            refine ⟨{ e with NextOffset := idx.FileSize }, ?_, ?_⟩
            · rw [hpN, hdesc, if_neg hAR, if_pos rfl]
            · show idx.FileSize = a
              rw [h3]
        · rw [if_neg h3] at he'
          obtain ⟨⟨x, hx, hxp⟩, ⟨y, hy, hyn⟩⟩ := hc a e' he'
          constructor
          · show ∃ q, lookupA _ e'.NextOffset = some q ∧ q.PreviousOffset = a
            by_cases hxa : e'.NextOffset = rootAddr
            · rw [hxa, hen] at hx
              cases hx
              exact absurd (henp ▸ hxp : addr = a) (fun h4 => h2 h4.symm)
            · by_cases hxb : e'.NextOffset = addr
              · rw [hxb, he] at hx
                cases hx
                refine ⟨{ e with NextOffset := idx.FileSize }, ?_, ?_⟩
                · rw [hxb, hdesc, if_neg hAR, if_pos rfl]
                · show e.PreviousOffset = a
                  exact hxp
              · refine ⟨x, ?_, hxp⟩
                rw [hdesc, if_neg hxa, if_neg hxb, if_neg (hbN _ _ hx)]
                exact hx
          · show ∃ q, lookupA _ e'.PreviousOffset = some q ∧ q.NextOffset = a
            by_cases hya : e'.PreviousOffset = addr
            · rw [hya, he] at hy
              cases hy
              exact absurd (hnext ▸ hyn : rootAddr = a) (fun h4 => h1 h4.symm)
            · by_cases hyb : e'.PreviousOffset = rootAddr
              · rw [hyb, hen] at hy
                cases hy
                refine ⟨{ en with PreviousOffset := idx.FileSize }, ?_, ?_⟩
                · rw [hyb, hdesc, if_pos rfl]
                · show en.NextOffset = a
                  exact hyn
              · refine ⟨y, ?_, hyn⟩
                rw [hdesc, if_neg hyb, if_neg hya, if_neg (hbN _ _ hy)]
                exact hy

/-- The append-tail branch of upsertEntry when the tail IS the root
(single-node self-loop): the two writes to `addr` collapse and the result
is a two-node cycle between `addr` and the fresh node. -/
theorem inv_upsert_append_self (idx : InvertedIndex) (addr len : Nat)
    (e newE : InvertedIndexEntry)
    (he : entryAt idx addr = some e)
    (hnext : e.NextOffset = addr)
    (hprev : e.PreviousOffset = addr)
    (hnN : newE.NextOffset = addr)
    (hpN : newE.PreviousOffset = addr)
    (hlen : 0 < len)
    (hinv : IdxInv idx) :
    IdxInv { idx with
      entries := putA (putA (putA idx.entries idx.FileSize newE) addr
        { e with NextOffset := idx.FileSize }) addr
        { e with NextOffset := idx.FileSize, PreviousOffset := idx.FileSize }
      FileSize := idx.FileSize + len } := by
  obtain ⟨hb, hc⟩ := hinv
  have hbN : ∀ b eb, entryAt idx b = some eb → b ≠ idx.FileSize := by
    intro b eb hbe
    have := hb b eb hbe; omega
  have haddrN : addr ≠ idx.FileSize := hbN _ _ he
  have hdesc : ∀ x, lookupA (putA (putA (putA idx.entries idx.FileSize newE) addr
      { e with NextOffset := idx.FileSize }) addr
      { e with NextOffset := idx.FileSize, PreviousOffset := idx.FileSize }) x
      = if x = addr then some { e with NextOffset := idx.FileSize, PreviousOffset := idx.FileSize }
        else if x = idx.FileSize then some newE
        else entryAt idx x := by
    intro x
    by_cases h1 : x = addr
    · rw [if_pos h1, h1, lookupA_putA_same]
    · rw [if_neg h1, lookupA_putA_ne _ _ _ _ (fun h2 => h1 h2.symm),
        lookupA_putA_ne _ _ _ _ (fun h2 => h1 h2.symm)]
      by_cases h3 : x = idx.FileSize
      · rw [if_pos h3, h3, lookupA_putA_same]
      · rw [if_neg h3, lookupA_putA_ne _ _ _ _ (fun h4 => h3 h4.symm)]
        rfl
  constructor
  · intro a e' he'
    simp only [entryAt] at he'
    rw [hdesc] at he'
    simp only
    by_cases h1 : a = addr
    · rw [h1]; have := hb _ _ he; omega
    · rw [if_neg h1] at he'
      by_cases h3 : a = idx.FileSize
      · rw [h3]; omega
      · rw [if_neg h3] at he'
        have := hb a e' he'; omega
  · intro a e' he'
    simp only [entryAt] at he' ⊢
    rw [hdesc] at he'
    by_cases h1 : a = addr
    · rw [if_pos h1] at he'
      cases he'
      constructor
      · show ∃ q, lookupA _ idx.FileSize = some q ∧ q.PreviousOffset = a
        refine ⟨newE, ?_, by rw [h1]; exact hpN⟩
        rw [hdesc, if_neg haddrN.symm, if_pos rfl]
      · show ∃ q, lookupA _ idx.FileSize = some q ∧ q.NextOffset = a
        refine ⟨newE, ?_, by rw [h1]; exact hnN⟩
        rw [hdesc, if_neg haddrN.symm, if_pos rfl]
    · rw [if_neg h1] at he'
      by_cases h3 : a = idx.FileSize
      · rw [if_pos h3] at he'
        cases he'
        constructor
        · show ∃ q, lookupA _ newE.NextOffset = some q ∧ q.PreviousOffset = a
          refine ⟨{ e with NextOffset := idx.FileSize, PreviousOffset := idx.FileSize }, ?_, ?_⟩
          · rw [hnN, hdesc, if_pos rfl]
          · show idx.FileSize = a
            rw [h3]
        · show ∃ q, lookupA _ newE.PreviousOffset = some q ∧ q.NextOffset = a
          refine ⟨{ e with NextOffset := idx.FileSize, PreviousOffset := idx.FileSize }, ?_, ?_⟩
          · rw [hpN, hdesc, if_pos rfl]
          · show idx.FileSize = a
            rw [h3]
      · rw [if_neg h3] at he'
        obtain ⟨⟨x, hx, hxp⟩, ⟨y, hy, hyn⟩⟩ := hc a e' he'
        constructor
        · show ∃ q, lookupA _ e'.NextOffset = some q ∧ q.PreviousOffset = a
          by_cases hxa : e'.NextOffset = addr
          · rw [hxa, he] at hx
            cases hx
            exact absurd (hprev ▸ hxp : addr = a) (fun h4 => h1 h4.symm)
          · refine ⟨x, ?_, hxp⟩
            rw [hdesc, if_neg hxa, if_neg (hbN _ _ hx)]
            exact hx
        · show ∃ q, lookupA _ e'.PreviousOffset = some q ∧ q.NextOffset = a
          by_cases hya : e'.PreviousOffset = addr
          · rw [hya, he] at hy
            cases hy
            exact absurd (hnext ▸ hyn : addr = a) (fun h4 => h1 h4.symm)
          · refine ⟨y, ?_, hyn⟩
            rw [hdesc, if_neg hya, if_neg (hbN _ _ hy)]
            exact hy

theorem inv_upsertEntry (idx : InvertedIndex) (pfx key : List Nat)
    (rootAddr kvAddr expiry : Nat) :
    ∀ fuel addr, IdxInv idx →
      IdxInv (idx.upsertEntry pfx rootAddr key kvAddr expiry addr fuel).2 := by
  intro fuel
  induction fuel with
  | zero => intro addr h; exact h
  | succ fuel ih =>
    intro addr h
    obtain ⟨hb, hc⟩ := h
    rw [InvertedIndex.upsertEntry]
    cases hlook : lookupA idx.entries addr with
    | none => exact ⟨hb, hc⟩
    | some e =>
      dsimp only
      have hlookE : entryAt idx addr = some e := hlook
      by_cases hkey : e.Key = key
      · rw [if_pos hkey]
        refine ⟨?_, ?_⟩
        · intro a e' he'
          simp only [entryAt] at he'
          by_cases ha : a = addr
          · rw [ha]
            exact hb addr e hlook
          · rw [lookupA_putA_ne _ _ _ _ (fun hx => ha hx.symm)] at he'
            exact hb a e' he'
        · intro a e' he'
          simp only [entryAt] at he' ⊢
          have hat : ∀ x ex, lookupA idx.entries x = some ex →
              lookupA (putA idx.entries addr { e with KvAddress := kvAddr, Expiry := expiry }) x
                = some (if x = addr then { e with KvAddress := kvAddr, Expiry := expiry } else ex) := by
            intro x ex hx
            by_cases hxa : x = addr
            · rw [hxa, lookupA_putA_same, if_pos rfl]
            · rw [lookupA_putA_ne _ _ _ _ (fun h2 => hxa h2.symm), if_neg hxa, hx]
          by_cases ha : a = addr
          · rw [ha] at he' ⊢
            rw [lookupA_putA_same] at he'
            cases he'
            obtain ⟨⟨en, hen, henp⟩, ⟨ep, hep, hepn⟩⟩ := hc addr e hlookE
            refine ⟨⟨_, hat _ _ hen, ?_⟩, ⟨_, hat _ _ hep, ?_⟩⟩
            · by_cases hx : e.NextOffset = addr
              · rw [if_pos hx]
                rw [hx, hlookE] at hen
                cases hen
                exact henp
              · rw [if_neg hx]; exact henp
            · by_cases hx : e.PreviousOffset = addr
              · rw [if_pos hx]
                rw [hx, hlookE] at hep
                cases hep
                exact hepn
              · rw [if_neg hx]; exact hepn
          · rw [lookupA_putA_ne _ _ _ _ (fun h2 => ha h2.symm)] at he'
            obtain ⟨⟨en, hen, henp⟩, ⟨ep, hep, hepn⟩⟩ := hc a e' he'
            refine ⟨⟨_, hat _ _ hen, ?_⟩, ⟨_, hat _ _ hep, ?_⟩⟩
            · by_cases hx : e'.NextOffset = addr
              · rw [if_pos hx]
                rw [hx, hlookE] at hen
                cases hen
                exact henp
              · rw [if_neg hx]; exact henp
            · by_cases hx : e'.PreviousOffset = addr
              · rw [if_pos hx]
                rw [hx, hlookE] at hep
                cases hep
                exact hepn
              · rw [if_neg hx]; exact hepn
      · rw [if_neg hkey]
        by_cases hnext : e.NextOffset = rootAddr
        · rw [if_pos hnext]
          obtain ⟨⟨x, hx, hxp⟩, _⟩ := hc addr e hlookE
          rw [hnext] at hx
          have haddrN : addr ≠ idx.FileSize := by have := hb _ _ hlookE; omega
          have hrootN : rootAddr ≠ idx.FileSize := by have := hb _ _ hx; omega
          by_cases hAR : addr = rootAddr
          · rw [← hAR] at hx hnext ⊢
            rw [hlookE] at hx
            injection hx with hxe
            subst hxe
            have hscrut : lookupA (putA (putA idx.entries idx.FileSize
                (NewInvertedIndexEntry pfx key expiry false kvAddr addr addr)) addr
                { e with NextOffset := idx.FileSize }) addr
                = some { e with NextOffset := idx.FileSize } := lookupA_putA_same _ _ _
            rw [hscrut]
            dsimp only
            exact inv_upsert_append_self idx addr _ e _ hlookE hnext hxp rfl rfl
              (asBytes_length_pos _) ⟨hb, hc⟩
          · have hscrut : lookupA (putA (putA idx.entries idx.FileSize
                (NewInvertedIndexEntry pfx key expiry false kvAddr rootAddr addr)) addr
                { e with NextOffset := idx.FileSize }) rootAddr = some x := by
              rw [lookupA_putA_ne _ _ _ _ hAR,
                lookupA_putA_ne _ _ _ _ (fun h2 => hrootN h2.symm)]
              exact hx
            rw [hscrut]
            dsimp only
            exact inv_upsert_append_distinct idx addr rootAddr _ e x _ ⟨hb, hc⟩ hlookE hx hxp
              hnext hAR rfl rfl (asBytes_length_pos _)
        · rw [if_neg hnext]
          by_cases hstop : e.NextOffset = rootAddr ∨ e.NextOffset = 0
          · rw [if_pos hstop]; exact ⟨hb, hc⟩
          · rw [if_neg hstop]
            exact ih e.NextOffset ⟨hb, hc⟩

theorem inv_addForIndexKey (idx : InvertedIndex) (hashFn : List Nat → Nat)
    (pfx key : List Nat) (kvAddr expiry : Nat) :
    ∀ fuel indexBlock, IdxInv idx →
      IdxInv (idx.addForIndexKey hashFn pfx key kvAddr expiry indexBlock fuel).2 := by
  intro fuel
  induction fuel with
  | zero => intro ib h; exact h
  | succ rem ih =>
    intro ib h
    rw [InvertedIndex.addForIndexKey]
    cases hoff : GetIndexOffsetInNthBlock idx.NumberOfIndexBlocks idx.NetBlockSize
        (idx.getIndexOffset hashFn pfx) ib with
    | error e => exact h
    | ok indexOffset =>
      dsimp only
      cases hread : idx.readEntryAddress indexOffset with
      | error e => exact h
      | ok addr =>
        dsimp only
        by_cases h0 : addr = 0
        · rw [if_pos h0]
          exact inv_appendNewRootEntry idx pfx key indexOffset kvAddr expiry h
        · rw [if_neg h0]
          by_cases hbelong : idx.addrBelongsToIndexKey addr pfx = true
          · rw [if_pos hbelong]
            exact inv_upsertEntry idx pfx key addr kvAddr expiry (idx.entries.length + 1) addr h
          · rw [if_neg hbelong]
            by_cases hlast : ib + 1 ≥ idx.NumberOfIndexBlocks
            · rw [if_pos hlast]; exact h
            · rw [if_neg hlast]
              exact ih (ib + 1) h

theorem inv_addLoop (hashFn : List Nat → Nat) (key : List Nat) (kvAddr expiry : Nat) :
    ∀ count idx i, IdxInv idx →
      IdxInv (idx.addLoop hashFn key kvAddr expiry i count).2 := by
  intro count
  induction count with
  | zero => intro idx i h; exact h
  | succ c ih =>
    intro idx i h
    rw [InvertedIndex.addLoop]
    have h' := inv_addForIndexKey idx hashFn (key.take i) key kvAddr expiry
      (idx.NumberOfIndexBlocks + 1) 0 h
    cases hstep : idx.addForIndexKey hashFn (key.take i) key kvAddr expiry 0
        (idx.NumberOfIndexBlocks + 1) with
    | mk res idx' =>
      rw [hstep] at h'
      cases res with
      | error e => exact h'
      | ok u => exact ih idx' (i + 1) h'

theorem inv_Add (hashFn : List Nat → Nat) (idx : InvertedIndex) (key : List Nat)
    (kvAddr expiry : Nat) (h : IdxInv idx) :
    IdxInv (idx.Add hashFn key kvAddr expiry).2 :=
  inv_addLoop hashFn key kvAddr expiry (min key.length idx.MaxIndexKeyLen) idx 1 h

/-- A batch of Add operations: each element is (key, kvAddress, expiry). -/
def applyAdds (hashFn : List Nat → Nat) (idx : InvertedIndex)
    (ops : List (List Nat × Nat × Nat)) : InvertedIndex :=
  ops.foldl (fun st op => (st.Add hashFn op.1 op.2.1 op.2.2).2) idx

theorem inv_NewInvertedIndexModel (maxKeys redundantBlocks blockSize maxIndexKeyLen : Nat) :
    IdxInv (NewInvertedIndexModel maxKeys redundantBlocks blockSize maxIndexKeyLen) := by
  constructor
  · intro a e he
    simp [entryAt, NewInvertedIndexModel, lookupA] at he
  · intro a e he
    simp [entryAt, NewInvertedIndexModel, lookupA] at he

theorem inv_applyAdds (hashFn : List Nat → Nat) :
    ∀ (ops : List (List Nat × Nat × Nat)) (idx : InvertedIndex), IdxInv idx →
      IdxInv (applyAdds hashFn idx ops) := by
  intro ops
  induction ops with
  | nil => intro idx h; exact h
  | cons op rest ih =>
    intro idx h
    exact ih (idx.Add hashFn op.1 op.2.1 op.2.2).2 (inv_Add hashFn idx op.1 op.2.1 op.2.2 h)

/-! ### The database file header (internal/entries/headers/db_file_header.go) -/

/-- The sixteen title bytes of "Scdb versn 0.001". -/
def scdbTitleBytes : List Nat :=
  [83, 99, 100, 98, 32, 118, 101, 114, 115, 110, 32, 48, 46, 48, 48, 49]

structure DbFileHeader where
  Title : List Nat
  BlockSize : Nat
  MaxKeys : Nat
  RedundantBlocks : Nat
  ItemsPerIndexBlock : Nat
  NumberOfIndexBlocks : Nat
  KeyValuesStartPoint : Nat
  NetBlockSize : Nat
  deriving Repr, DecidableEq

/-- updateDerivedProps (headers/shared.go): items per block, number of
index blocks (a ceiling division, plus the redundant blocks), net block
size and the key-values start point. -/
def updateDerivedProps (h : DbFileHeader) : DbFileHeader :=
  let items := h.BlockSize / IndexEntrySizeInBytes
  let num := (h.MaxKeys + items - 1) / items + h.RedundantBlocks
  let net := items * IndexEntrySizeInBytes
  { h with ItemsPerIndexBlock := items
           NumberOfIndexBlocks := num
           NetBlockSize := net
           KeyValuesStartPoint := HeaderSizeInBytes + net * num }

def NewDbFileHeader (maxKeys redundantBlocks blockSize : Nat) : DbFileHeader :=
  updateDerivedProps
    { Title := scdbTitleBytes
      BlockSize := blockSize
      MaxKeys := maxKeys
      RedundantBlocks := redundantBlocks
      ItemsPerIndexBlock := 0
      NumberOfIndexBlocks := 0
      KeyValuesStartPoint := 0
      NetBlockSize := 0 }

/-- DbFileHeader.AsBytes: title, block size, max keys, redundant blocks
and 70 reserved zero bytes, 100 bytes in all. -/
def DbFileHeader.AsBytes (h : DbFileHeader) : List Nat :=
  h.Title ++ Uint32ToByteArray h.BlockSize ++ Uint64ToByteArray h.MaxKeys ++
    Uint16ToByteArray h.RedundantBlocks ++ List.replicate 70 0

def ExtractDbFileHeaderFromByteArray (data : List Nat) : Except Err DbFileHeader :=
  if data.length < HeaderSizeInBytes then .error (.outOfBounds "header too short")
  else
    .ok (updateDerivedProps
      { Title := data.take 16
        BlockSize := beVal ((data.drop 16).take 4)
        MaxKeys := beVal ((data.drop 20).take 8)
        RedundantBlocks := beVal ((data.drop 28).take 2)
        ItemsPerIndexBlock := 0
        NumberOfIndexBlocks := 0
        KeyValuesStartPoint := 0
        NetBlockSize := 0 })

/-- ExtractDbFileHeaderFromFile: readHeaderFile demands at least 100 bytes
of file, then the header is parsed out of them. -/
def ExtractDbFileHeaderFromFile (file : List Nat) : Except Err DbFileHeader :=
  if file.length < HeaderSizeInBytes then .error (.outOfBounds "short header read")
  else ExtractDbFileHeaderFromByteArray (file.take HeaderSizeInBytes)

/-- InitializeFile: the truncated file holds the header bytes followed by
the zeroed index region. -/
def InitializeFile (header : DbFileHeader) : List Nat :=
  header.AsBytes ++ List.replicate (header.NumberOfIndexBlocks * header.NetBlockSize) 0

/-- GetIndexOffset (headers/shared.go) against the db file header. -/
def DbFileHeader.GetIndexOffset (h : DbFileHeader) (hashFn : List Nat → Nat)
    (key : List Nat) : Nat :=
  HeaderSizeInBytes + GetHash hashFn key h.ItemsPerIndexBlock * IndexEntrySizeInBytes


/-! ### Byte-level files and buffers (internal/buffers/buffer.go) -/

/-- os.File.ReadAt into a fresh zeroed buffer of length `n`, tolerating
io.EOF as the pool.go callers do: the bytes present from `off`,
zero-padded back to length `n`. -/
def readAtPadded (file : List Nat) (off n : Nat) : List Nat :=
  let got := (file.drop off).take n
  got ++ List.replicate (n - got.length) 0

/-- The byte count os.File.ReadAt actually delivers. -/
def bytesReadAt (file : List Nat) (off n : Nat) : Nat :=
  ((file.drop off).take n).length

/-- os.File.WriteAt: overwrite `data` at `off`, zero-filling any gap and
growing the file as needed. -/
def writeAt (file : List Nat) (off : Nat) (data : List Nat) : List Nat :=
  let f := file ++ List.replicate (max file.length (off + data.length) - file.length) 0
  f.take off ++ data ++ f.drop (off + data.length)

/-- extractKeyAsByteArrayFromFile (pool.go): a strict read (any io.EOF is
propagated as an error) of the key bytes at `kvAddr + 8`. -/
def extractKeyAsByteArrayFromFile (file : List Nat) (kvAddr keySize : Nat) :
    Except Err (List Nat) :=
  if file.length < kvAddr + OffsetForKeyInKVArray + keySize then .error .ioEOF
  else .ok ((file.drop (kvAddr + OffsetForKeyInKVArray)).take keySize)

/-- getKvByteArray (pool.go): strict reads of the 4-byte size field and
then of the whole record. -/
def getKvByteArray (file : List Nat) (addrBytes : List Nat) : Except Err (List Nat) :=
  match Uint64FromByteArray addrBytes with
  | .error e => .error e
  | .ok addr =>
    if file.length < addr + 4 then .error .ioEOF
    else
      match Uint32FromByteArray ((file.drop addr).take 4) with
      | .error e => .error e
      | .ok size =>
        if 0 < size ∧ file.length < addr + size then .error .ioEOF
        else .ok ((file.drop addr).take size)

structure Buffer where
  capacity : Nat
  Data : List Nat
  LeftOffset : Nat
  RightOffset : Nat
  deriving Repr, DecidableEq

/-- NewBuffer: the data is truncated to the capacity; `RightOffset` is the
exclusive upper file offset of the held data. -/
def NewBuffer (leftOffset : Nat) (data : List Nat) (capacity : Nat) : Buffer :=
  let upperBound := min data.length capacity
  { capacity := capacity
    Data := data.take upperBound
    LeftOffset := leftOffset
    RightOffset := leftOffset + upperBound }

def Buffer.CanAppend (b : Buffer) (addr : Nat) : Bool :=
  decide (b.RightOffset - b.LeftOffset < b.capacity) && decide (addr = b.RightOffset)

def Buffer.Contains (b : Buffer) (addr : Nat) : Bool :=
  decide (b.LeftOffset ≤ addr) && decide (addr < b.RightOffset)

/-- Buffer.Append: returns the previous right offset (the address where
the data landed) together with the grown buffer. -/
def Buffer.Append (b : Buffer) (data : List Nat) : Nat × Buffer :=
  (b.RightOffset,
    { b with Data := b.Data ++ data, RightOffset := b.RightOffset + data.length })

/-- Buffer.Replace: bounds-validated in-place overwrite.  The Go slice
expression panics when the write window falls outside the held data, which
the model reports as `sliceFault`. -/
def Buffer.Replace (b : Buffer) (addr : Nat) (data : List Nat) : Except Err Buffer :=
  match ValidateBounds addr (addr + data.length) b.LeftOffset b.RightOffset
      "address out of bound" with
  | .error e => .error e
  | .ok _ =>
    let start := addr - b.LeftOffset
    let patched := b.Data.take start ++ data ++ b.Data.drop (start + data.length)
    if b.Data.length < start + data.length then .error .sliceFault
    else .ok { b with Data := patched }

/-- Buffer.GetValue: parse the record at the address and return it when
its key equals the probed key. -/
def Buffer.GetValue (b : Buffer) (addr : Nat) (key : List Nat) :
    Except Err (Option KeyValueEntry) :=
  match ExtractKeyValueEntryFromByteArray b.Data (addr - b.LeftOffset) with
  | .error e => .error e
  | .ok entry => if entry.Key = key then .ok (some entry) else .ok none

def Buffer.ReadAt (b : Buffer) (addr size : Nat) : Except Err (List Nat) :=
  match ValidateBounds addr (addr + size) b.LeftOffset b.RightOffset
      "address out of bounds" with
  | .error e => .error e
  | .ok _ =>
    let lwr := addr - b.LeftOffset
    if b.Data.length < lwr + size then .error .sliceFault
    else .ok ((b.Data.drop lwr).take size)

/-- Buffer.AddrBelongsToKey: compares exactly `key.length` bytes of the
stored key at the address with the probed key. -/
def Buffer.AddrBelongsToKey (b : Buffer) (addr : Nat) (key : List Nat) :
    Except Err Bool :=
  match ValidateBounds addr (addr + key.length + OffsetForKeyInKVArray) b.LeftOffset
      b.RightOffset "address out of bounds" with
  | .error e => .error e
  | .ok _ =>
    let lw := addr - b.LeftOffset + OffsetForKeyInKVArray
    if b.Data.length < lw + key.length then .error .sliceFault
    else .ok (decide ((b.Data.drop lw).take key.length = key))

/-- Buffer.TryDeleteKvEntry: when `key.length` bytes at the key offset
match the probed key, the byte right after that window is set to 1. -/
def Buffer.TryDeleteKvEntry (b : Buffer) (addr : Nat) (key : List Nat) :
    Except Err (Bool × Buffer) :=
  match ValidateBounds addr (addr + key.length + OffsetForKeyInKVArray) b.LeftOffset
      b.RightOffset "address out of bounds" with
  | .error e => .error e
  | .ok _ =>
    let keyOffset := addr - b.LeftOffset + OffsetForKeyInKVArray
    if b.Data.length < keyOffset + key.length then .error .sliceFault
    else if (b.Data.drop keyOffset).take key.length = key then
      if b.Data.length ≤ keyOffset + key.length then .error .sliceFault
      else .ok (true, { b with Data := b.Data.set (keyOffset + key.length) 1 })
    else .ok (false, b)

/-! ### The buffer pool (internal/buffers/pool.go)

`kvBuffers` holds the FIFO newest first: the Go code appends new buffers
at the back and every loop scans from the back, so the head of this list
is what each reverse loop inspects first, and evicting the oldest buffer
drops the LAST element. -/

structure BufferPool where
  kvCapacity : Nat
  indexCapacity : Nat
  bufferSize : Nat
  keyValuesStartPoint : Nat
  maxKeys : Nat
  redundantBlocks : Nat
  kvBuffers : List Buffer
  indexBuffers : List (Nat × Buffer)
  file : List Nat
  FileSize : Nat
  deriving Repr, DecidableEq

/-- getIndexCapacity (pool.go): floor(2/3 of the capacity), clamped
between 1 and the number of index blocks. -/
def getIndexCapacity (numOfIndexBlocks totalCapacity : Nat) : Nat :=
  max 1 (min (2 * totalCapacity / 3) numOfIndexBlocks)

/-- getBlockLeftOffset (pool.go). -/
def BufferPool.getBlockLeftOffset (bp : BufferPool) (addr minOffset : Nat) : Nat :=
  (addr - minOffset) / bp.bufferSize * bp.bufferSize + minOffset

/-- NewBufferPool over a freshly created database file. -/
def NewBufferPoolModel (capacity maxKeys redundantBlocks bufferSize : Nat) : BufferPool :=
  let header := NewDbFileHeader maxKeys redundantBlocks bufferSize
  let file := InitializeFile header
  let indexCap := getIndexCapacity header.NumberOfIndexBlocks capacity
  { kvCapacity := capacity - indexCap
    indexCapacity := indexCap
    bufferSize := bufferSize
    keyValuesStartPoint := header.KeyValuesStartPoint
    maxKeys := maxKeys
    redundantBlocks := redundantBlocks
    kvBuffers := []
    indexBuffers := []
    file := file
    FileSize := file.length }

/-- The reverse loop of BufferPool.Append over the kv buffers (newest
first here): the first buffer that can append takes the data. -/
def poolAppendLoop (fileSize : Nat) (data : List Nat) :
    List Buffer → Option (Nat × List Buffer × Nat)
  | [] => none
  | b :: rest =>
    if b.CanAppend fileSize then
      let r := b.Append data
      some (r.1, r.2 :: rest, r.2.RightOffset)
    else
      match poolAppendLoop fileSize data rest with
      | none => none
      | some (addr, rest2, fs) => some (addr, b :: rest2, fs)

/-- BufferPool.Append: append through a cached buffer when one ends at the
file end, else write directly at the file end. -/
def BufferPool.Append (bp : BufferPool) (data : List Nat) : Nat × BufferPool :=
  match poolAppendLoop bp.FileSize data bp.kvBuffers with
  | some (addr, bufs, fs) =>
    (addr, { bp with kvBuffers := bufs, FileSize := fs, file := writeAt bp.file addr data })
  | none =>
    (bp.FileSize, { bp with file := writeAt bp.file bp.FileSize data,
                            FileSize := bp.FileSize + data.length })

/-- BufferPool.UpdateIndex: bounds-validated write into the index region,
mirrored into the cached index buffer of that block when present. -/
def BufferPool.UpdateIndex (bp : BufferPool) (addr : Nat) (data : List Nat) :
    Except Err BufferPool :=
  match ValidateBounds addr (addr + data.length) HeaderSizeInBytes bp.keyValuesStartPoint
      "data is outside the index bounds" with
  | .error e => .error e
  | .ok _ =>
    let blockLeftOffset := bp.getBlockLeftOffset addr HeaderSizeInBytes
    match lookupA bp.indexBuffers blockLeftOffset with
    | some buf =>
      match buf.Replace addr data with
      | .error e => .error e
      | .ok buf2 =>
        .ok { bp with indexBuffers := putA bp.indexBuffers blockLeftOffset buf2,
                      file := writeAt bp.file addr data }
    | none => .ok { bp with file := writeAt bp.file addr data }

/-- The eviction key for a full index-buffer cache: the biggest left
offset held (0 when the cache is empty). -/
def biggestLeftOffset (l : List (Nat × Buffer)) : Nat :=
  l.foldl (fun m p => max m p.1) 0

/-- BufferPool.ReadIndex: serve the 8-byte slot from the cached block
buffer if present, else page the whole block in (evicting the buffer with
the biggest left offset when the cache is full) and slice the slot out of
the paged data - the Go slice panics (`sliceFault`) if the slot crosses
the buffer boundary. -/
def BufferPool.ReadIndex (bp : BufferPool) (addr : Nat) :
    Except Err (List Nat) × BufferPool :=
  match ValidateBounds addr (addr + IndexEntrySizeInBytes) HeaderSizeInBytes
      bp.keyValuesStartPoint "out of index bounds" with
  | .error e => (.error e, bp)
  | .ok _ =>
    let blockLeftOffset := bp.getBlockLeftOffset addr HeaderSizeInBytes
    match lookupA bp.indexBuffers blockLeftOffset with
    | some buf => (buf.ReadAt addr IndexEntrySizeInBytes, bp)
    | none =>
      let data := readAtPadded bp.file blockLeftOffset bp.bufferSize
      let newBuf := NewBuffer blockLeftOffset data bp.bufferSize
      let evicted :=
        if bp.indexBuffers.length ≥ bp.indexCapacity then
          eraseA bp.indexBuffers (biggestLeftOffset bp.indexBuffers)
        else bp.indexBuffers
      let bp2 := { bp with indexBuffers := putA evicted blockLeftOffset newBuf }
      let start := addr - blockLeftOffset
      if bp.bufferSize < start + IndexEntrySizeInBytes then (.error .sliceFault, bp2)
      else (.ok ((data.drop start).take IndexEntrySizeInBytes), bp2)

/-- The reverse loop over the kv buffers looking for one containing the
address (newest first here). -/
def findKvBuffer : List Buffer → Nat → Option Buffer
  | [], _ => none
  | b :: rest, addr => if b.Contains addr then some b else findKvBuffer rest addr

/-- BufferPool.GetValue: serve from a containing cached buffer, else page
a bufferSize window in at the address (evicting the oldest buffer when the
cache is full), parse it and filter by key, expiry and tombstone.  Note
the parse runs over the full zero-padded window. -/
def BufferPool.GetValue (bp : BufferPool) (kvAddress : Nat) (key : List Nat)
    (now : Nat) : Except Err (Option KeyValueEntry) × BufferPool :=
  if kvAddress = 0 then (.ok none, bp)
  else
    match findKvBuffer bp.kvBuffers kvAddress with
    | some buf => (buf.GetValue kvAddress key, bp)
    | none =>
      let bufs0 := if bp.kvBuffers.length ≥ bp.kvCapacity then bp.kvBuffers.dropLast
                   else bp.kvBuffers
      let data := readAtPadded bp.file kvAddress bp.bufferSize
      let got := bytesReadAt bp.file kvAddress bp.bufferSize
      let cached := NewBuffer kvAddress (data.take got) bp.bufferSize :: bufs0
      let bp2 := { bp with kvBuffers := cached }
      match ExtractKeyValueEntryFromByteArray data 0 with
      | .error e => (.error e, bp2)
      | .ok entry =>
        if decide (entry.Key = key) && !(IsExpired entry.Expiry now) && !entry.IsDeleted
        then (.ok (some entry), bp2)
        else (.ok none, bp2)

/-- BufferPool.AddrBelongsToKey: false at or beyond the file size; else
serve from a containing cached buffer, or page a window in and compare
`key.length` bytes at the key offset using bytes.Contains. -/
def BufferPool.AddrBelongsToKey (bp : BufferPool) (kvAddress : Nat) (key : List Nat) :
    Except Err Bool × BufferPool :=
  if kvAddress ≥ bp.FileSize then (.ok false, bp)
  else
    match findKvBuffer bp.kvBuffers kvAddress with
    | some buf => (buf.AddrBelongsToKey kvAddress key, bp)
    | none =>
      let bufs0 := if bp.kvBuffers.length ≥ bp.kvCapacity then bp.kvBuffers.dropLast
                   else bp.kvBuffers
      let data := readAtPadded bp.file kvAddress bp.bufferSize
      let got := bytesReadAt bp.file kvAddress bp.bufferSize
      let cached := NewBuffer kvAddress (data.take got) bp.bufferSize :: bufs0
      let bp2 := { bp with kvBuffers := cached }
      if bp.bufferSize < OffsetForKeyInKVArray + key.length then (.error .sliceFault, bp2)
      else
        (.ok (bytesContains ((data.drop OffsetForKeyInKVArray).take key.length) key), bp2)

/-- The reverse loop of BufferPool.TryDeleteKvEntry over the kv buffers
(newest first here): every containing buffer is tried in turn until one
reports success. -/
def tryDeleteLoop (addr : Nat) (key : List Nat) :
    List Buffer → Except Err Bool × List Buffer
  | [] => (.ok false, [])
  | b :: rest =>
    if b.Contains addr then
      match b.TryDeleteKvEntry addr key with
      | .error e => (.error e, b :: rest)
      | .ok (true, b2) => (.ok true, b2 :: rest)
      | .ok (false, b2) =>
        match tryDeleteLoop addr key rest with
        | (r, rest2) => (r, b2 :: rest2)
    else
      match tryDeleteLoop addr key rest with
      | (r, rest2) => (r, b :: rest2)

/-- BufferPool.TryDeleteKvEntry: try the cached buffers, then fall back to
a strict read of the key bytes from the file; on a match the deleted flag
byte at `kvAddress + 8 + key.length` is written both in the matching
buffer (when cached) and in the file. -/
def BufferPool.TryDeleteKvEntry (bp : BufferPool) (kvAddress : Nat) (key : List Nat) :
    Except Err Bool × BufferPool :=
  let addrForIsDeleted := kvAddress + OffsetForKeyInKVArray + key.length
  match tryDeleteLoop kvAddress key bp.kvBuffers with
  | (.error e, bufs) => (.error e, { bp with kvBuffers := bufs })
  | (.ok true, bufs) =>
    (.ok true, { bp with kvBuffers := bufs, file := writeAt bp.file addrForIsDeleted [1] })
  | (.ok false, bufs) =>
    match extractKeyAsByteArrayFromFile bp.file kvAddress key.length with
    | .error e => (.error e, { bp with kvBuffers := bufs })
    | .ok keyInData =>
      if keyInData = key then
        (.ok true, { bp with kvBuffers := bufs,
                             file := writeAt bp.file addrForIsDeleted [1] })
      else (.ok false, { bp with kvBuffers := bufs })

/-- readKvSize (pool.go): EOF-tolerant read of the 4-byte size field. -/
def readKvSize (file : List Nat) (addr : Nat) : Except Err Nat :=
  Uint32FromByteArray (readAtPadded file addr 4)

/-- The loop of BufferPool.GetManyKeyValues: resolve each address to its
record straight from the file, dropping tombstoned and expired records. -/
def getManyLoop (file : List Nat) (now : Nat) :
    List Nat → Except Err (List (List Nat × List Nat))
  | [] => .ok []
  | addr :: rest =>
    match readKvSize file addr with
    | .error e => .error e
    | .ok size =>
      match ExtractKeyValueEntryFromByteArray (readAtPadded file addr size) 0 with
      | .error e => .error e
      | .ok entry =>
        match getManyLoop file now rest with
        | .error e => .error e
        | .ok results =>
          if !entry.IsDeleted && !(IsExpired entry.Expiry now) then
            .ok ((entry.Key, entry.Value) :: results)
          else .ok results

def BufferPool.GetManyKeyValues (bp : BufferPool) (addrs : List Nat) (now : Nat) :
    Except Err (List (List Nat × List Nat)) :=
  getManyLoop bp.file now addrs

/-- readIndexBlock (pool.go): the bytes of the given index block actually
present in the file. -/
def readIndexBlock (file : List Nat) (blockNum blockSize : Nat) : List Nat :=
  (file.drop (HeaderSizeInBytes + blockNum * blockSize)).take blockSize

/-- The 8-byte index slots of an index block, in order. -/
def indexChunks (l : List Nat) : List (List Nat) :=
  (List.range ((l.length + 7) / 8)).map fun i => (l.drop (8 * i)).take 8

/-- The per-slot loop of BufferPool.CompactFile: a non-zero slot's record
is copied to the bottom of the new file and re-indexed (and re-added to
the search index) when live, else its slot in the new file is zeroed. -/
def compactLoop (oldFile : List Nat) (hashFn : List Nat → Nat) (now : Nat) :
    List (List Nat) → List Nat → Nat → Nat → InvertedIndex →
    Except Err (List Nat × Nat × InvertedIndex)
  | [], newFile, _, nfo, si => .ok (newFile, nfo, si)
  | idxBytes :: rest, newFile, idxOffset, nfo, si =>
    if idxBytes = List.replicate 8 0 then
      compactLoop oldFile hashFn now rest newFile (idxOffset + 8) nfo si
    else
      match getKvByteArray oldFile idxBytes with
      | .error e => .error e
      | .ok kvByteArray =>
        match ExtractKeyValueEntryFromByteArray kvByteArray 0 with
        | .error e => .error e
        | .ok kv =>
          if !(IsExpired kv.Expiry now) && !kv.IsDeleted then
            let newFile2 := writeAt (writeAt newFile nfo kvByteArray) idxOffset
              (Uint64ToByteArray nfo)
            match si.Add hashFn kv.Key nfo kv.Expiry with
            | (.error e, _) => .error e
            | (.ok _, si2) =>
              compactLoop oldFile hashFn now rest newFile2 (idxOffset + 8)
                (nfo + kvByteArray.length) si2
          else
            compactLoop oldFile hashFn now rest
              (writeAt newFile idxOffset (List.replicate 8 0)) (idxOffset + 8) nfo si

/-- The per-block loop of BufferPool.CompactFile: copy each index block
into the new file, then process its slots. -/
def compactBlocksLoop (oldFile : List Nat) (hashFn : List Nat → Nat) (now : Nat)
    (blockSize : Nat) :
    Nat → Nat → List Nat → Nat → Nat → InvertedIndex →
    Except Err (List Nat × Nat × InvertedIndex)
  | 0, _, newFile, _, nfo, si => .ok (newFile, nfo, si)
  | remaining + 1, i, newFile, idxOffset, nfo, si =>
    let indexBlock := readIndexBlock oldFile i blockSize
    let newFile1 := writeAt newFile idxOffset indexBlock
    match compactLoop oldFile hashFn now (indexChunks indexBlock) newFile1 idxOffset nfo si with
    | .error e => .error e
    | .ok (newFile2, nfo2, si2) =>
      compactBlocksLoop oldFile hashFn now blockSize remaining (i + 1) newFile2
        (idxOffset + 8 * (indexChunks indexBlock).length) nfo2 si2

/-- BufferPool.CompactFile: rebuild the file from the live records only,
clear the caches and adopt the new file and its size. -/
def BufferPool.CompactFile (bp : BufferPool) (searchIndex : InvertedIndex)
    (hashFn : List Nat → Nat) (now : Nat) :
    Except Err Unit × BufferPool × InvertedIndex :=
  match ExtractDbFileHeaderFromFile bp.file with
  | .error e => (.error e, bp, searchIndex)
  | .ok header =>
    let newFile0 := writeAt [] 0 header.AsBytes
    match compactBlocksLoop bp.file hashFn now header.NetBlockSize
        header.NumberOfIndexBlocks 0 newFile0 HeaderSizeInBytes
        header.KeyValuesStartPoint searchIndex with
    | .error e => (.error e, bp, searchIndex)
    | .ok (newFile, nfo, si2) =>
      (.ok (), { bp with kvBuffers := [], indexBuffers := [], file := newFile,
                         FileSize := nfo }, si2)


/-! ### The store (scdb/store.go) -/

structure Store where
  bufferPool : BufferPool
  header : DbFileHeader
  searchIndex : InvertedIndex
  deriving Repr, DecidableEq

/-- New (store.go): a store over a fresh database file and a fresh search
index file.  The search index blockSize (the OS page size in Go) is the
`idxBlockSize` parameter. -/
def NewStoreModel (maxKeys redundantBlocks poolCapacity bufferSize maxIndexKeyLen
    idxBlockSize : Nat) : Store :=
  { bufferPool := NewBufferPoolModel poolCapacity maxKeys redundantBlocks bufferSize
    header := NewDbFileHeader maxKeys redundantBlocks bufferSize
    searchIndex := NewInvertedIndexModel maxKeys redundantBlocks idxBlockSize maxIndexKeyLen }

/-- The write half of Store.Set, once a probe slot is empty or belongs to
the key: append the record, point the slot at it, update the search
index (whose error, if any, is Set's return value). -/
def Store.setWrite (s : Store) (hashFn : List Nat → Nat) (k v : List Nat)
    (expiry indexOffset : Nat) : Except Err Unit × Store :=
  let kv := NewKeyValueEntry k v expiry
  match s.bufferPool.Append kv.AsBytes with
  | (prevLastOffset, bp1) =>
    match bp1.UpdateIndex indexOffset (Uint64ToByteArray prevLastOffset) with
    | .error e => (.error e, { s with bufferPool := bp1 })
    | .ok bp2 =>
      match s.searchIndex.Add hashFn k prevLastOffset expiry with
      | (r, si2) => (r, { s with bufferPool := bp2, searchIndex := si2 })

/-- The probe loop of Store.Set over the index blocks; exhausting the
blocks yields ErrCollisionSaturation. -/
def scdbSetLoop (hashFn : List Nat → Nat) (k v : List Nat)
    (expiry initialIdxOffset : Nat) :
    Nat → Nat → Store → Except Err Unit × Store
  | _, 0, s => (.error (.collisionSaturation k), s)
  | idxBlock, remaining + 1, s =>
    match GetIndexOffsetInNthBlock s.header.NumberOfIndexBlocks s.header.NetBlockSize
        initialIdxOffset idxBlock with
    | .error e => (.error e, s)
    | .ok indexOffset =>
      match s.bufferPool.ReadIndex indexOffset with
      | (.error e, bp1) => (.error e, { s with bufferPool := bp1 })
      | (.ok kvOffsetInBytes, bp1) =>
        let s1 := { s with bufferPool := bp1 }
        match Uint64FromByteArray kvOffsetInBytes with
        | .error e => (.error e, s1)
        | .ok kvOffset =>
          if kvOffset = 0 then s1.setWrite hashFn k v expiry indexOffset
          else
            match s1.bufferPool.AddrBelongsToKey kvOffset k with
            | (.error e, bp2) => (.error e, { s1 with bufferPool := bp2 })
            | (.ok belongs, bp2) =>
              let s2 := { s1 with bufferPool := bp2 }
              if belongs then s2.setWrite hashFn k v expiry indexOffset
              else scdbSetLoop hashFn k v expiry initialIdxOffset (idxBlock + 1) remaining s2

/-- Store.Set: no ttl means expiry 0 (never expires). -/
def Store.Set (s : Store) (hashFn : List Nat → Nat) (k v : List Nat)
    (ttl : Option Nat) (now : Nat) : Except Err Unit × Store :=
  let expiry := match ttl with | none => 0 | some t => now + t
  scdbSetLoop hashFn k v expiry (s.header.GetIndexOffset hashFn k) 0
    s.header.NumberOfIndexBlocks s

/-- The probe loop of Store.Get: zero slots and key mismatches move on to
the next index block; a found record yields its value. -/
def scdbGetLoop (hashFn : List Nat → Nat) (k : List Nat) (now initialIdxOffset : Nat) :
    Nat → Nat → Store → Except Err (Option (List Nat)) × Store
  | _, 0, s => (.ok none, s)
  | idxBlock, remaining + 1, s =>
    match GetIndexOffsetInNthBlock s.header.NumberOfIndexBlocks s.header.NetBlockSize
        initialIdxOffset idxBlock with
    | .error e => (.error e, s)
    | .ok indexOffset =>
      match s.bufferPool.ReadIndex indexOffset with
      | (.error e, bp1) => (.error e, { s with bufferPool := bp1 })
      | (.ok kvOffsetInBytes, bp1) =>
        let s1 := { s with bufferPool := bp1 }
        if kvOffsetInBytes = Uint64ToByteArray 0 then
          scdbGetLoop hashFn k now initialIdxOffset (idxBlock + 1) remaining s1
        else
          match Uint64FromByteArray kvOffsetInBytes with
          | .error e => (.error e, s1)
          | .ok kvOffset =>
            match s1.bufferPool.GetValue kvOffset k now with
            | (.error e, bp2) => (.error e, { s1 with bufferPool := bp2 })
            | (.ok none, bp2) =>
              scdbGetLoop hashFn k now initialIdxOffset (idxBlock + 1) remaining
                { s1 with bufferPool := bp2 }
            | (.ok (some entry), bp2) =>
              (.ok (some entry.Value), { s1 with bufferPool := bp2 })

def Store.Get (s : Store) (hashFn : List Nat → Nat) (k : List Nat) (now : Nat) :
    Except Err (Option (List Nat)) × Store :=
  scdbGetLoop hashFn k now (s.header.GetIndexOffset hashFn k) 0
    s.header.NumberOfIndexBlocks s

/-- The probe loop of Store.Delete: a successful TryDeleteKvEntry returns
at once WITHOUT touching the search index; only when no probe matched does
Delete fall through to searchIndex.Remove. -/
def scdbDeleteLoop (hashFn : List Nat → Nat) (k : List Nat) (initialIdxOffset : Nat) :
    Nat → Nat → Store → Except Err Unit × Store
  | _, 0, s =>
    match s.searchIndex.Remove k with
    | (r, si2) => (r, { s with searchIndex := si2 })
  | idxBlock, remaining + 1, s =>
    match GetIndexOffsetInNthBlock s.header.NumberOfIndexBlocks s.header.NetBlockSize
        initialIdxOffset idxBlock with
    | .error e => (.error e, s)
    | .ok indexOffset =>
      match s.bufferPool.ReadIndex indexOffset with
      | (.error e, bp1) => (.error e, { s with bufferPool := bp1 })
      | (.ok kvOffsetInBytes, bp1) =>
        let s1 := { s with bufferPool := bp1 }
        if kvOffsetInBytes = Uint64ToByteArray 0 then
          scdbDeleteLoop hashFn k initialIdxOffset (idxBlock + 1) remaining s1
        else
          match Uint64FromByteArray kvOffsetInBytes with
          | .error e => (.error e, s1)
          | .ok kvOffset =>
            match s1.bufferPool.TryDeleteKvEntry kvOffset k with
            | (.error e, bp2) => (.error e, { s1 with bufferPool := bp2 })
            | (.ok true, bp2) => (.ok (), { s1 with bufferPool := bp2 })
            | (.ok false, bp2) =>
              scdbDeleteLoop hashFn k initialIdxOffset (idxBlock + 1) remaining
                { s1 with bufferPool := bp2 }

def Store.Delete (s : Store) (hashFn : List Nat → Nat) (k : List Nat) :
    Except Err Unit × Store :=
  scdbDeleteLoop hashFn k (s.header.GetIndexOffset hashFn k) 0
    s.header.NumberOfIndexBlocks s

/-- Store.Search: search-index lookup, then resolution of the returned kv
addresses against the data file. -/
def Store.Search (s : Store) (hashFn : List Nat → Nat) (term : List Nat)
    (skip limit : Nat) (now : Nat) :
    Except Err (List (List Nat × List Nat)) × Store :=
  match s.searchIndex.searchFrom hashFn term skip limit now with
  | .error e => (.error e, s)
  | .ok addrs => (s.bufferPool.GetManyKeyValues addrs now, s)

def Store.Compact (s : Store) (hashFn : List Nat → Nat) (now : Nat) :
    Except Err Unit × Store :=
  match s.bufferPool.CompactFile s.searchIndex hashFn now with
  | (r, bp, si2) => (r, { s with bufferPool := bp, searchIndex := si2 })

/-- Modelled from the spec: the store variant whose constructor takes an
`isSearchEnabled` flag.  The implementation file of this variant is not
under src/, but src/scdb/store_test.go (TestStore_SearchDisabled and the
createStore helper) constructs it and demands the "search not supported"
error from Search on a store opened with the flag off. -/
structure StoreV2 where
  base : Store
  isSearchEnabled : Bool
  deriving Repr, DecidableEq

/-- Modelled from the spec: Search gated on the capability flag; with the
flag on it behaves as the ungated Store.Search. -/
def StoreV2.Search (s : StoreV2) (hashFn : List Nat → Nat) (term : List Nat)
    (skip limit : Nat) (now : Nat) :
    Except Err (List (List Nat × List Nat)) × StoreV2 :=
  if s.isSearchEnabled then
    match s.base.Search hashFn term skip limit now with
    | (r, base2) => (r, { s with base := base2 })
  else (.error (.capabilityDisabled "search not supported"), s)

/-! ### Claim C2: search disabled -/

/-- **C2.** For every store constructed without search enabled, and for
every term, skip and limit, Search(term, skip, limit) returns the
CapabilityDisabled("search not supported") error instead of performing a
search (the gated store variant is modelled from the spec, as its
implementation file is not under src/). -/
theorem search_disabled_returns_capability_error (base : Store)
    (hashFn : List Nat → Nat) (term : List Nat) (skip limit now : Nat) :
    StoreV2.Search { base := base, isSearchEnabled := false } hashFn term skip limit now
      = (.error (.capabilityDisabled "search not supported"),
         { base := base, isSearchEnabled := false }) := rfl

/-! ### Claim C5: the inverted-index record's total-size field -/

/-- **C5 (counterexample).** The record with index key "fo" (2 bytes) and
key "foo" (3 bytes) - the test vector of the repository's own test suite -
stores total-size 47, not 34 + 2 + 3 = 39. -/
theorem inverted_entry_total_size_counterexample :
    (NewInvertedIndexEntry [102, 111] [102, 111, 111] 0 false 100 900 90).Size = 47
    ∧ (NewInvertedIndexEntry [102, 111] [102, 111, 111] 0 false 100 900 90).Size
        ≠ 34 + 2 + 3 := by decide

/-- **C5 (amended).** For every inverted-index record with an index key of
p bytes and a key of n bytes (sizes within uint32), the stored total-size
field equals 42 + p + n. -/
theorem inverted_entry_total_size (indexKey key : List Nat) (expiry : Nat)
    (isRoot : Bool) (kvAddr nxt prev : Nat)
    (h : 42 + indexKey.length + key.length < U32) :
    (NewInvertedIndexEntry indexKey key expiry isRoot kvAddr nxt prev).Size
      = 42 + indexKey.length + key.length := by
  have h1 : key.length % U32 = key.length := Nat.mod_eq_of_lt (by omega)
  have h2 : indexKey.length % U32 = indexKey.length := Nat.mod_eq_of_lt (by omega)
  show (key.length % U32 + indexKey.length % U32 + InvertedIndexEntryMinSizeInBytes) % U32
      = 42 + indexKey.length + key.length
  rw [h1, h2]
  have h3 : key.length + indexKey.length + InvertedIndexEntryMinSizeInBytes
      = 42 + indexKey.length + key.length := by
    show key.length + indexKey.length + (4 + 4 + 1 + 1 + 8 + 8 + 8 + 8)
      = 42 + indexKey.length + key.length
    omega
  rw [h3]
  exact Nat.mod_eq_of_lt (by omega)

theorem inverted_entry_total_size_witness :
    42 + 2 + 3 < U32
    ∧ (NewInvertedIndexEntry [102, 111] [102, 111, 111] 0 false 100 900 90).Size
        = 42 + 2 + 3 := by
  refine ⟨by decide, ?_⟩
  have h := inverted_entry_total_size [102, 111] [102, 111, 111] 0 false 100 900 90
    (by decide)
  simpa using h

/-! ### Claim C7: the cyclic-list invariant under Add -/

/-- **C7.** For every sequence of inverted-index Add operations starting
from a fresh index, every per-prefix list stays doubly-linked cyclic
(every node's next.prev and prev.next come back to the node); moreover a
newly created root record has is_root = 1 and next = prev = its own
address. -/
theorem add_preserves_cyclic_invariant (hashFn : List Nat → Nat)
    (maxKeys redundantBlocks blockSize maxIndexKeyLen : Nat)
    (ops : List (List Nat × Nat × Nat)) :
    CyclicInv (applyAdds hashFn
      (NewInvertedIndexModel maxKeys redundantBlocks blockSize maxIndexKeyLen) ops)
    ∧ (∀ (idx : InvertedIndex) (pfx key : List Nat) (indexOffset kvAddr expiry : Nat),
        entryAt (idx.appendNewRootEntry pfx indexOffset key kvAddr expiry) idx.FileSize
          = some (NewInvertedIndexEntry pfx key expiry true kvAddr idx.FileSize
              idx.FileSize)
        ∧ (NewInvertedIndexEntry pfx key expiry true kvAddr idx.FileSize
            idx.FileSize).IsRoot = true
        ∧ (NewInvertedIndexEntry pfx key expiry true kvAddr idx.FileSize
            idx.FileSize).NextOffset = idx.FileSize
        ∧ (NewInvertedIndexEntry pfx key expiry true kvAddr idx.FileSize
            idx.FileSize).PreviousOffset = idx.FileSize) := by
  constructor
  · exact (inv_applyAdds hashFn ops _
      (inv_NewInvertedIndexModel maxKeys redundantBlocks blockSize maxIndexKeyLen)).2
  · intro idx pfx key indexOffset kvAddr expiry
    refine ⟨?_, rfl, rfl, rfl⟩
    show lookupA (putA idx.entries idx.FileSize _) idx.FileSize = _
    rw [lookupA_putA_same]

/-! ### Claim C10: key probes examine only the probed key's length -/

/-- The stored record of the C10 fixture: key "abc", value "x". -/
def longerKeyRecord : KeyValueEntry := NewKeyValueEntry [97, 98, 99] [120] 0

/-- The buffer of the C10 fixture, holding the record for "abc" at 79. -/
def longerKeyBuffer : Buffer := NewBuffer 79 longerKeyRecord.AsBytes 4098

/-- The pool of the C10 fixture after appending the record for "abc":
(address of the record, pool). -/
def longerKeyAppended : Nat × BufferPool :=
  (NewBufferPoolModel 5 1 0 64).Append longerKeyRecord.AsBytes

/-- TryDeleteKvEntry for the two-byte prefix key "ab" against the stored
three-byte key "abc", through the pool. -/
def longerKeyDeleted : Except Err Bool × BufferPool :=
  longerKeyAppended.2.TryDeleteKvEntry longerKeyAppended.1 [97, 98]

/-- **C10.** For a stored record whose key "abc" strictly extends the
queried key "ab", AddrBelongsToKey at the record's address answers true
for "ab" (it compares only the first two stored key bytes), and
TryDeleteKvEntry answers true and writes the 1-flag at address + 8 + 2,
which is the third byte of the stored key "abc" rather than the record's
is-deleted byte at address + 8 + 3 (that byte stays 0): Set("ab") and
Delete("ab") can act on the slot of the different key "abc".  Shown both
at the Buffer level and through the pool against the file. -/
theorem addr_belongs_matches_longer_key :
    longerKeyBuffer.AddrBelongsToKey 79 [97, 98] = .ok true
    ∧ (longerKeyBuffer.TryDeleteKvEntry 79 [97, 98]).map (fun r => r.1) = .ok true
    ∧ (longerKeyBuffer.TryDeleteKvEntry 79 [97, 98]).map
        (fun r => r.2.Data.getD 10 0) = .ok 1
    ∧ (longerKeyBuffer.TryDeleteKvEntry 79 [97, 98]).map
        (fun r => r.2.Data.getD 11 0) = .ok 0
    ∧ longerKeyRecord.AsBytes.getD 10 0 = 99
    ∧ (longerKeyAppended.2.AddrBelongsToKey longerKeyAppended.1 [97, 98]).1 = .ok true
    ∧ longerKeyDeleted.1 = .ok true
    ∧ longerKeyDeleted.2.file.getD (longerKeyAppended.1 + 8 + 2) 0 = 1
    ∧ longerKeyDeleted.2.file.getD (longerKeyAppended.1 + 8 + 3) 0 = 0 := by decide

/-! ### Claim C9: index read/write bounds -/

theorem lookupA_mem {β : Type} (l : List (Nat × β)) (k : Nat) (v : β)
    (h : lookupA l k = some v) : (k, v) ∈ l := by
  induction l with
  | nil => exact absurd h (by simp [lookupA])
  | cons p rest ih =>
    rw [lookupA] at h
    by_cases hk : p.1 = k
    · rw [if_pos hk] at h
      cases h
      rw [← hk]
      exact Prod.mk.eta ▸ List.mem_cons_self p rest
    · rw [if_neg hk] at h
      exact List.mem_cons_of_mem _ (ih h)

/-- Cached index-block buffers as ReadIndex creates them on an initialized
file: anchored at a block-aligned left offset, holding a full bufferSize
window. -/
def IndexBufWF (bp : BufferPool) : Prop :=
  ∀ p ∈ bp.indexBuffers,
    (p.2 : Buffer).LeftOffset = p.1 ∧ p.2.RightOffset = p.1 + bp.bufferSize ∧
    p.2.Data.length = bp.bufferSize ∧ HeaderSizeInBytes ≤ p.1 ∧
    (p.1 - HeaderSizeInBytes) % bp.bufferSize = 0

theorem aligned_slot_fits (bs j : Nat) (hdiv : 8 ∣ bs) (hbs : 0 < bs) :
    8 * j % bs + 8 ≤ bs := by
  obtain ⟨m, rfl⟩ := hdiv
  have hm : 0 < m := by omega
  have h1 : 8 * j % (8 * m) = 8 * (j % m) := Nat.mul_mod_mul_left 8 j m
  have h2 : j % m < m := Nat.mod_lt _ hm
  omega

/-- **C9 (counterexample).** With bufferSize 12 (not a multiple of the
8-byte slot size) on a fresh pool with two index blocks, the slot at
address 108 lies within the claimed bounds (100 ≤ 108 and 108 + 8 ≤
key-values start 116), yet after the slot at 100 has been read (caching
the block window [100, 112)), both read_index(108) and
update_index(108, 8 bytes) fail with OutOfBounds. -/
theorem index_io_bounds_counterexample :
    let bp := NewBufferPoolModel 5 2 0 12
    let bp1 := (bp.ReadIndex 100).2
    HeaderSizeInBytes ≤ 108
    ∧ 108 + 8 ≤ bp.keyValuesStartPoint
    ∧ isOutOfBoundsResult (bp.ReadIndex 100).1 = false
    ∧ isOutOfBoundsResult (bp1.ReadIndex 108).1 = true
    ∧ isOutOfBoundsResult (bp1.UpdateIndex 108 (Uint64ToByteArray 0)) = true := by
  decide

/-- **C9 (amended).** For 8-byte-aligned slot addresses `100 + 8 * j` and
8-byte data, on a pool whose bufferSize is a positive multiple of 8 and
whose cached index buffers are well-formed, read_index and update_index
fail with OutOfBounds exactly when the slot leaves [100,
keyValuesStartPoint], and inside those bounds both succeed. -/
theorem index_io_bounds_aligned (bp : BufferPool) (j : Nat) (data : List Nat)
    (hwf : IndexBufWF bp) (hdiv : 8 ∣ bp.bufferSize) (hbs : 0 < bp.bufferSize)
    (hdata : data.length = 8) :
    (isOutOfBoundsResult (bp.ReadIndex (HeaderSizeInBytes + 8 * j)).1
      = decide (bp.keyValuesStartPoint < HeaderSizeInBytes + 8 * j + 8))
    ∧ (isOutOfBoundsResult (bp.UpdateIndex (HeaderSizeInBytes + 8 * j) data)
      = decide (bp.keyValuesStartPoint < HeaderSizeInBytes + 8 * j + 8))
    ∧ (HeaderSizeInBytes + 8 * j + 8 ≤ bp.keyValuesStartPoint →
        (∃ out bp2, bp.ReadIndex (HeaderSizeInBytes + 8 * j) = (.ok out, bp2))
        ∧ (∃ bp3, bp.UpdateIndex (HeaderSizeInBytes + 8 * j) data = .ok bp3)) := by
  set A := HeaderSizeInBytes + 8 * j with hA
  have hfit : 8 * j % bp.bufferSize + 8 ≤ bp.bufferSize :=
    aligned_slot_fits bp.bufferSize j hdiv hbs
  by_cases hb : bp.keyValuesStartPoint < A + 8
  · have hvalR : ValidateBounds A (A + IndexEntrySizeInBytes) HeaderSizeInBytes
        bp.keyValuesStartPoint "out of index bounds"
        = .error (.outOfBounds "out of index bounds") := by
      rw [ValidateBounds, if_pos]
      exact Or.inr hb
    have hvalU : ValidateBounds A (A + 8) HeaderSizeInBytes
        bp.keyValuesStartPoint "data is outside the index bounds"
        = .error (.outOfBounds "data is outside the index bounds") := by
      rw [ValidateBounds, if_pos (Or.inr hb)]
    refine ⟨?_, ?_, ?_⟩
    · rw [BufferPool.ReadIndex, hvalR]
      simp [isOutOfBoundsResult, Err.isOutOfBounds, hb]
    · rw [BufferPool.UpdateIndex, hdata, hvalU]
      simp [isOutOfBoundsResult, Err.isOutOfBounds, hb]
    · intro hle
      omega
  · have hbne : ¬ (A < HeaderSizeInBytes ∨ A + 8 > bp.keyValuesStartPoint) := by
      rintro (h1 | h1) <;> omega
    have hvalR : ValidateBounds A (A + IndexEntrySizeInBytes) HeaderSizeInBytes
        bp.keyValuesStartPoint "out of index bounds" = .ok () := by
      rw [ValidateBounds, if_neg]
      exact hbne
    have hvalU : ValidateBounds A (A + 8) HeaderSizeInBytes
        bp.keyValuesStartPoint "data is outside the index bounds" = .ok () := by
      rw [ValidateBounds, if_neg hbne]
    have hdm := Nat.div_add_mod (8 * j) bp.bufferSize
    have hq : 8 * j / bp.bufferSize * bp.bufferSize
        = bp.bufferSize * (8 * j / bp.bufferSize) := Nat.mul_comm _ _
    have hL : bp.getBlockLeftOffset A HeaderSizeInBytes
        = 8 * j / bp.bufferSize * bp.bufferSize + HeaderSizeInBytes := by
      rw [BufferPool.getBlockLeftOffset]
      have hs : A - HeaderSizeInBytes = 8 * j := by omega
      rw [hs]
    set L := 8 * j / bp.bufferSize * bp.bufferSize + HeaderSizeInBytes with hLdef
    have hLA : L ≤ A := by omega
    have hAL : A - L = 8 * j % bp.bufferSize := by omega
    have hstart : A - L + 8 ≤ bp.bufferSize := by omega
    have hARb : A + 8 ≤ L + bp.bufferSize := by omega
    cases hlook : lookupA bp.indexBuffers L with
    | some buf =>
      obtain ⟨hl, hr, hd, _, _⟩ := hwf _ (lookupA_mem _ _ _ hlook)
      have hl' : buf.LeftOffset = L := hl
      have hr' : buf.RightOffset = L + bp.bufferSize := hr
      have hd' : buf.Data.length = bp.bufferSize := hd
      have hreadAt : buf.ReadAt A IndexEntrySizeInBytes
          = .ok ((buf.Data.drop (A - buf.LeftOffset)).take IndexEntrySizeInBytes) := by
        rw [Buffer.ReadAt, ValidateBounds, if_neg]
        · dsimp only
          rw [if_neg]
          show ¬ buf.Data.length < A - buf.LeftOffset + 8
          rw [hd', hl']
          omega
        · show ¬ (A < buf.LeftOffset ∨ A + 8 > buf.RightOffset)
          rw [hl', hr']
          rintro (h1 | h1) <;> omega
      have hpatched : ∃ b2, Buffer.Replace buf A data = .ok b2 := by
        rw [Buffer.Replace, ValidateBounds, if_neg]
        · dsimp only
          rw [if_neg]
          · exact ⟨_, rfl⟩
          · show ¬ buf.Data.length < A - buf.LeftOffset + data.length
            rw [hd', hl', hdata]
            omega
        · show ¬ (A < buf.LeftOffset ∨ A + data.length > buf.RightOffset)
          rw [hl', hr', hdata]
          rintro (h1 | h1) <;> omega
      obtain ⟨b2, hb2⟩ := hpatched
      have hRI : bp.ReadIndex A
          = (.ok ((buf.Data.drop (A - buf.LeftOffset)).take IndexEntrySizeInBytes), bp) := by
        rw [BufferPool.ReadIndex, hvalR]
        dsimp only
        rw [hL, hlook]
        dsimp only
        rw [hreadAt]
      have hUI : ∃ bp3, bp.UpdateIndex A data = .ok bp3 := by
        rw [BufferPool.UpdateIndex, hdata, hvalU]
        dsimp only
        rw [hL, hlook]
        dsimp only
        rw [hb2]
        exact ⟨_, rfl⟩
      obtain ⟨bp3, hUI3⟩ := hUI
      refine ⟨?_, ?_, ?_⟩
      · rw [hRI]
        simp [isOutOfBoundsResult, hb]
      · rw [hUI3]
        simp [isOutOfBoundsResult, hb]
      · intro hle
        exact ⟨⟨_, _, hRI⟩, ⟨_, hUI3⟩⟩
    | none =>
      have hguard : ¬ bp.bufferSize < A - L + IndexEntrySizeInBytes := by
        show ¬ bp.bufferSize < A - L + 8
        omega
      have hRI : ∃ out bp2, bp.ReadIndex A = (.ok out, bp2) := by
        rw [BufferPool.ReadIndex, hvalR]
        dsimp only
        rw [hL, hlook]
        dsimp only
        rw [if_neg hguard]
        exact ⟨_, _, rfl⟩
      have hUI : ∃ bp3, bp.UpdateIndex A data = .ok bp3 := by
        rw [BufferPool.UpdateIndex, hdata, hvalU]
        dsimp only
        rw [hL, hlook]
        dsimp only
        exact ⟨_, rfl⟩
      obtain ⟨out, bp2, hRI2⟩ := hRI
      obtain ⟨bp3, hUI3⟩ := hUI
      refine ⟨?_, ?_, ?_⟩
      · rw [hRI2]
        simp [isOutOfBoundsResult, hb]
      · rw [hUI3]
        simp [isOutOfBoundsResult, hb]
      · intro hle
        exact ⟨⟨_, _, hRI2⟩, ⟨_, hUI3⟩⟩

/-- Closing the amended C9 theorem on a concrete pool: a fresh pool with
bufferSize 16 and its cached state after one read both satisfy the
well-formedness hypothesis, and the slot at j = 1 behaves as stated. -/
theorem index_io_bounds_aligned_witness :
    IndexBufWF ((NewBufferPoolModel 5 2 0 16).ReadIndex 100).2
    ∧ (isOutOfBoundsResult
        ((((NewBufferPoolModel 5 2 0 16).ReadIndex 100).2.ReadIndex
          (HeaderSizeInBytes + 8 * 1)).1)
      = decide ((((NewBufferPoolModel 5 2 0 16).ReadIndex 100).2.keyValuesStartPoint
          < HeaderSizeInBytes + 8 * 1 + 8))) := by
  have hwf : IndexBufWF ((NewBufferPoolModel 5 2 0 16).ReadIndex 100).2 := by
    unfold IndexBufWF
    decide
  refine ⟨hwf, ?_⟩
  exact (index_io_bounds_aligned (((NewBufferPoolModel 5 2 0 16).ReadIndex 100).2) 1
    (Uint64ToByteArray 0) hwf (by decide) (by decide) (by decide)).1

/-! ### Claim C3: Delete and the search index -/

/-- **C3 (code bug).** InvertedIndex.Remove (inverted_index.go 178-181) is
the stub `return nil`: it never touches the index, contradicting its own
doc comment, the spec and TestInvertedIndex_Remove.  Moreover
Store.Delete's successful probe path returns before the
`searchIndex.Remove` call, so Delete never changes the search index at
all; concretely, after Set("a") and a successful Delete("a") the root
node for "a" still sits in the search index with is_deleted = 0. -/
theorem delete_never_marks_search_index :
    (∀ (idx : InvertedIndex) (key : List Nat), idx.Remove key = (.ok (), idx))
    ∧ (∀ (hashFn : List Nat → Nat) (k : List Nat)
        (initialIdxOffset idxBlock remaining : Nat) (s : Store),
        (scdbDeleteLoop hashFn k initialIdxOffset idxBlock remaining s).2.searchIndex
          = s.searchIndex)
    ∧ ((((NewStoreModel 1 0 5 24 2 8).Set (fun _ => 0) [97] [120] none 1000).2.Delete
          (fun _ => 0) [97]).1 = .ok ()
      ∧ (lookupA ((((NewStoreModel 1 0 5 24 2 8).Set (fun _ => 0) [97] [120] none
            1000).2.Delete (fun _ => 0) [97]).2.searchIndex.entries) 108).map
          InvertedIndexEntry.IsDeleted = some false) := by
  refine ⟨fun idx key => rfl, ?_, by decide⟩
  intro hashFn k initialIdxOffset idxBlock remaining s
  induction remaining generalizing idxBlock s with
  | zero => rfl
  | succ rem ih =>
    rw [scdbDeleteLoop]
    cases GetIndexOffsetInNthBlock s.header.NumberOfIndexBlocks s.header.NetBlockSize
        initialIdxOffset idxBlock with
    | error e => rfl
    | ok indexOffset =>
      dsimp only
      cases s.bufferPool.ReadIndex indexOffset with
      | mk res bp1 =>
        cases res with
        | error e => rfl
        | ok kvOffsetInBytes =>
          dsimp only
          by_cases hz : kvOffsetInBytes = Uint64ToByteArray 0
          · rw [if_pos hz]
            exact ih _ _
          · rw [if_neg hz]
            cases Uint64FromByteArray kvOffsetInBytes with
            | error e => rfl
            | ok kvOffset =>
              dsimp only
              cases ({ s with bufferPool := bp1 } : Store).bufferPool.TryDeleteKvEntry
                  kvOffset k with
              | mk res2 bp2 =>
                cases res2 with
                | error e => rfl
                | ok flag =>
                  cases flag with
                  | true => rfl
                  | false => exact ih _ _

/-! ### Claim C1: Set then Get -/

/-- **C1 (counterexample).** On a fresh store with bufferSize 16, Set("a",
2-byte value) succeeds (the 20-byte record is appended to the file), but
the immediately following Get("a") fails with OutOfBounds: Get pages a
single bufferSize window in at the record's address and the record does
not fit in it. -/
theorem set_then_get_counterexample :
    let s0 := NewStoreModel 1 0 5 16 2 8
    let r := s0.Set (fun _ => 0) [97] [120, 121] none 1000
    r.1 = .ok ()
    ∧ (NewKeyValueEntry [97] [120, 121] 0).AsBytes.length = 20
    ∧ s0.bufferPool.bufferSize = 16
    ∧ isOutOfBoundsResult (r.2.Get (fun _ => 0) [97] 1000).1 = true := by decide

/-! ### Claim C4: Compact -/

/-- **C4 (counterexample).** A reachable store (Set "aa", Set "ab", Delete
"ab") holds one live and one tombstoned record.  Compact() succeeds, but
the search outcome for the live key's prefix "a" changes from
[("aa", value)] to an OutOfBounds error: the tombstoned record's node is
left dangling in the search index (Remove is a stub and CompactFile only
re-adds live records), and its kv address now lies beyond the compacted
file. -/
theorem compact_changes_search_outcome :
    let hf : List Nat → Nat :=
      fun key => if key = [97, 97] then 1 else if key = [97, 98] then 2 else 0
    let s1 := ((NewStoreModel 1 0 5 24 2 24).Set hf [97, 97] [120, 121] none 1000).2
    let s2 := (s1.Set hf [97, 98] [122, 123] none 1000).2
    let s3 := (s2.Delete hf [97, 98]).2
    let comp := s3.Compact hf 1000
    (s3.Search hf [97] 0 0 1000).1 = .ok [([97, 97], [120, 121])]
    ∧ comp.1 = .ok ()
    ∧ isOutOfBoundsResult (comp.2.Search hf [97] 0 0 1000).1 = true := by decide

/-- The hash of the C4 fixture: "aa" and "ab" land in distinct slots. -/
def compactFixtureHash : List Nat → Nat :=
  fun key => if key = [97, 97] then 1 else if key = [97, 98] then 2 else 0

/-- The C4 fixture: Set "aa", Set "ab", Delete "ab" - one live and one
tombstoned record. -/
def compactFixtureStore : Store :=
  (((((NewStoreModel 1 0 5 24 2 24).Set compactFixtureHash [97, 97] [120, 121] none
    1000).2.Set compactFixtureHash [97, 98] [122, 123] none 1000).2.Delete
    compactFixtureHash [97, 98])).2

/-- Compact() run on the C4 fixture. -/
def compactFixtureRun : Except Err Unit × Store :=
  compactFixtureStore.Compact compactFixtureHash 1000

/-- The hash of the C4 oversized fixture: "a" and "b" in distinct slots. -/
def compactOversizedHash : List Nat → Nat := fun key => if key = [98] then 1 else 0

/-- The 10-byte value whose serialized record (28 bytes) exceeds the
24-byte bufferSize of the C4 oversized fixture. -/
def compactOversizedValue : List Nat := [120, 121, 122, 123, 124, 125, 126, 127, 128, 129]

/-- The C4 oversized fixture: Set "a"; Get "a" (pages the kv window in, and
the cached buffer ends at the file end); Set "b" with the oversized record,
which is appended through that cached buffer; Delete "a" (so one tombstoned
record exists).  Before compaction the live "b" record is served complete
out of the append-grown cache buffer. -/
def compactOversizedStore : Store :=
  (((((NewStoreModel 1 0 5 24 2 24).Set compactOversizedHash [97] [120] none
    1000).2.Get compactOversizedHash [97] 1000).2.Set compactOversizedHash [98]
    compactOversizedValue none 1000).2.Delete compactOversizedHash [97]).2

/-- Compact() run on the C4 oversized fixture. -/
def compactOversizedRun : Except Err Unit × Store :=
  compactOversizedStore.Compact compactOversizedHash 1000

/-- **C4 (amended).** Compact() does not preserve the outcome of every Get
and Search for live keys.  On the one-live-one-tombstoned fixture of the
counterexample, Compact() succeeds, strictly decreases the file size and
preserves the live key's Get (and the deleted key stays absent) - while
breaking the live key's prefix Search, per the counterexample.  On the
oversized fixture (a record tombstoned on disk - the is-deleted byte of
the record at 124 is 1 - plus a live record of 28 bytes against a
bufferSize of 24, served from the append-grown cache buffer),
Compact() succeeds and strictly decreases the file size, but the live
key's Get goes from ok value to OutOfBounds once Compact drops the
caches: even Get-preservation for live keys fails in general. -/
theorem compact_concrete_behaviour :
    compactFixtureRun.1 = .ok ()
    ∧ compactFixtureRun.2.bufferPool.FileSize < compactFixtureStore.bufferPool.FileSize
    ∧ (compactFixtureStore.Get compactFixtureHash [97, 97] 1000).1
        = .ok (some [120, 121])
    ∧ (compactFixtureRun.2.Get compactFixtureHash [97, 97] 1000).1
        = .ok (some [120, 121])
    ∧ (compactFixtureRun.2.Get compactFixtureHash [97, 98] 1000).1 = .ok none
    ∧ compactOversizedStore.bufferPool.file.getD (124 + 8 + 1) 0 = 1
    ∧ (compactOversizedStore.Get compactOversizedHash [98] 1000).1
        = .ok (some compactOversizedValue)
    ∧ (NewKeyValueEntry [98] compactOversizedValue 0).AsBytes.length = 28
    ∧ compactOversizedStore.bufferPool.bufferSize = 24
    ∧ compactOversizedRun.1 = .ok ()
    ∧ compactOversizedRun.2.bufferPool.FileSize
        < compactOversizedStore.bufferPool.FileSize
    ∧ isOutOfBoundsResult (compactOversizedRun.2.Get compactOversizedHash [98] 1000).1
        = true := by
  decide

/-! ### Claim C6: CollisionSaturation -/

/-- **C6 (counterexample).** Set("b", v) returns CollisionSaturation("b")
even though the probed slot for "b" (the only one, at offset 108) is
empty: the database-side probe succeeded and the record was written, but
the search-index Add for the prefix "b" was saturated and its error is
returned as Set's result. -/
theorem set_collision_without_probe_saturation :
    let hashT : List Nat → Nat := fun key => if key = [98] then 1 else 0
    let s1 := ((NewStoreModel 1 0 5 24 2 8).Set hashT [97] [120] none 1000).2
    (s1.Set hashT [98] [121] none 1000).1 = .error (.collisionSaturation [98])
    ∧ s1.header.NumberOfIndexBlocks = 1
    ∧ s1.header.GetIndexOffset hashT [98] = 108
    ∧ (s1.bufferPool.ReadIndex 108).1 = .ok (Uint64ToByteArray 0) := by decide

/-! ### Claim C8: Search pagination -/

/-- **C8 (counterexample).** With a tombstoned first match ("aa" deleted)
and a live second match ("ab"), Search("a", 1, 0) returns [("ab", v)] -
but the contiguous slice of Search("a", 0, 0) = [("ab", v)] starting at
offset 1 is []: skip counts tombstoned matches at the index level while
the results are filtered afterwards. -/
theorem search_pagination_counterexample :
    let hf : List Nat → Nat :=
      fun key => if key = [97, 97] then 1 else if key = [97, 98] then 2 else 0
    let s2 := (((NewStoreModel 1 0 5 24 2 24).Set hf [97, 97] [120, 121] none
      1000).2.Set hf [97, 98] [122, 123] none 1000).2
    let s3 := (s2.Delete hf [97, 97]).2
    (s3.Search hf [97] 0 0 1000).1 = .ok [([97, 98], [122, 123])]
    ∧ (s3.Search hf [97] 1 0 1000).1 = .ok [([97, 98], [122, 123])]
    ∧ (s3.Search hf [97] 1 0 1000).1
        ≠ .ok (List.drop 1 [([97, 98], [122, 123])]) := by decide

/-- The unpaginated walk only ever appends to its accumulator: running it
from any accumulator (and any skipped count) is running it from scratch
and prefixing. -/
theorem matchWalk_append (idx : InvertedIndex) (term : List Nat) (now root : Nat) :
    ∀ fuel addr acc sk,
      idx.matchWalk term now root 0 0 addr acc sk fuel
        = (idx.matchWalk term now root 0 0 addr [] 0 fuel).map (fun t => acc ++ t) := by
  intro fuel
  induction fuel with
  | zero => intro addr acc sk; rfl
  | succ fuel ih =>
    intro addr acc sk
    rw [InvertedIndex.matchWalk, InvertedIndex.matchWalk]
    cases hlook : lookupA idx.entries addr with
    | none => rfl
    | some e =>
      dsimp only
      by_cases hstop : e.NextOffset = root ∨ e.NextOffset = 0
      · cases hM : (!(IsExpired e.Expiry now) && bytesContains e.Key term) with
        | false => simp [hM, hstop, Except.map]
        | true => simp [hM, hstop, Except.map]
      · cases hM : (!(IsExpired e.Expiry now) && bytesContains e.Key term) with
        | false =>
          simp only [hM, hstop, Bool.false_and, Bool.and_false, Bool.false_eq_true,
            if_false, Nat.not_lt_zero, ite_false]
          rw [ih e.NextOffset acc sk, ih e.NextOffset [] 0]
        | true =>
          simp [hM, hstop]
          rw [ih e.NextOffset (acc ++ [e.KvAddress]) sk, ih e.NextOffset [e.KvAddress] 0]
          cases idx.matchWalk term now root 0 0 e.NextOffset [] 0 fuel with
          | error er => rfl
          | ok t => simp [Except.map]

/-- The slice the pagination contract promises: everything from the
offset when limit is 0, else at most `limit - already` further elements
(`already` is how many results are in hand when the walk continues). -/
def pageTake (limit already : Nat) (l : List Nat) : List Nat :=
  if limit = 0 then l else l.take (limit - already)

/-- The paginated walk returns exactly the promised slice of the
unpaginated walk's results. -/
theorem matchWalk_paged (idx : InvertedIndex) (term : List Nat)
    (now root skip limit : Nat) :
    ∀ fuel addr acc skd tail,
      skd ≤ skip →
      (limit = 0 ∨ acc.length < limit) →
      idx.matchWalk term now root 0 0 addr [] 0 fuel = .ok tail →
      idx.matchWalk term now root skip limit addr acc skd fuel
        = .ok (acc ++ pageTake limit acc.length (tail.drop (skip - skd))) := by
  intro fuel
  induction fuel with
  | zero =>
    intro addr acc skd tail _ _ hfull
    rw [InvertedIndex.matchWalk] at hfull
    exact absurd hfull (by simp)
  | succ fuel ih =>
    intro addr acc skd tail hskd hlim hfull
    rw [InvertedIndex.matchWalk] at hfull ⊢
    cases hlook : lookupA idx.entries addr with
    | none =>
      rw [hlook] at hfull
      exact absurd hfull (by simp)
    | some e =>
      rw [hlook] at hfull
      dsimp only at hfull ⊢
      cases hM : (!(IsExpired e.Expiry now) && bytesContains e.Key term) with
      | false =>
        rw [hM] at hfull
        simp only [hM, Bool.false_and, Bool.and_false, Bool.false_eq_true, if_false,
          Nat.not_lt_zero, ite_false] at hfull ⊢
        by_cases hstop : e.NextOffset = root ∨ e.NextOffset = 0
        · rw [if_pos hstop] at hfull ⊢
          cases hfull
          simp [pageTake]
        · rw [if_neg hstop] at hfull ⊢
          exact ih e.NextOffset acc skd tail hskd hlim hfull
      | true =>
        rw [hM] at hfull
        simp only [eq_self_iff_true, if_true, Bool.true_and, Nat.lt_irrefl, if_false,
          List.nil_append, decide_eq_true_eq] at hfull ⊢
        rw [if_neg (by simp : ¬ (decide False && decide (0 ≤ ([e.KvAddress] : List Nat).length)) = true)] at hfull
        by_cases hsg : skd < skip
        · simp only [if_pos hsg]
          have hno : ¬ (decide (0 < limit) && decide (limit ≤ acc.length)) = true := by
            rcases hlim with h0 | h0 <;> simp <;> omega
          rw [if_neg hno]
          by_cases hstop : e.NextOffset = root ∨ e.NextOffset = 0
          · rw [if_pos hstop] at hfull ⊢
            cases hfull
            have hd : ([e.KvAddress] : List Nat).drop (skip - skd) = [] :=
              List.drop_eq_nil_of_le (by simp; omega)
            simp [pageTake, hd]
          · rw [if_neg hstop] at hfull ⊢
            rw [matchWalk_append idx term now root fuel e.NextOffset [e.KvAddress] 0]
              at hfull
            cases wres : idx.matchWalk term now root 0 0 e.NextOffset [] 0 fuel with
            | error er =>
              rw [wres] at hfull
              exact absurd hfull (by simp [Except.map])
            | ok t2 =>
              rw [wres] at hfull
              simp only [Except.map] at hfull
              cases hfull
              rw [ih e.NextOffset acc (skd + 1) t2 (by omega) hlim wres]
              have harith : skip - skd = (skip - (skd + 1)) + 1 := by omega
              rw [harith]
              simp [List.drop_succ_cons]
        · have hge : skip - skd = 0 := by omega
          simp only [if_neg hsg]
          by_cases hlstop : (decide (0 < limit)
              && decide (limit ≤ (acc ++ [e.KvAddress]).length)) = true
          · rw [if_pos hlstop]
            simp only [Bool.and_eq_true, decide_eq_true_eq, List.length_append,
              List.length_singleton] at hlstop
            have h1 : limit - acc.length = 1 := by
              rcases hlim with h0 | h0 <;> omega
            by_cases hstop : e.NextOffset = root ∨ e.NextOffset = 0
            · rw [if_pos hstop] at hfull
              cases hfull
              rw [hge]
              simp [pageTake, h1, Nat.pos_iff_ne_zero.mp hlstop.1]
            · rw [if_neg hstop] at hfull
              rw [matchWalk_append idx term now root fuel e.NextOffset [e.KvAddress] 0]
                at hfull
              cases wres : idx.matchWalk term now root 0 0 e.NextOffset [] 0 fuel with
              | error er =>
                rw [wres] at hfull
                exact absurd hfull (by simp [Except.map])
              | ok t2 =>
                rw [wres] at hfull
                simp only [Except.map] at hfull
                cases hfull
                rw [hge]
                simp [pageTake, h1, Nat.pos_iff_ne_zero.mp hlstop.1]
          · rw [if_neg hlstop]
            simp only [Bool.and_eq_true, decide_eq_true_eq, List.length_append,
              List.length_singleton, not_and, not_le] at hlstop
            have hlim2 : limit = 0 ∨ (acc ++ [e.KvAddress]).length < limit := by
              rcases Nat.eq_zero_or_pos limit with h0 | h0
              · exact Or.inl h0
              · right
                have := hlstop h0
                simp only [List.length_append, List.length_singleton]
                omega
            by_cases hstop : e.NextOffset = root ∨ e.NextOffset = 0
            · rw [if_pos hstop] at hfull ⊢
              cases hfull
              rw [hge]
              rcases Nat.eq_zero_or_pos limit with h0 | h0
              · simp [pageTake, h0]
              · have h2 : 2 ≤ limit - acc.length := by
                  have := hlstop h0
                  rcases hlim with hx | hx <;> omega
                rw [List.drop_zero, pageTake, if_neg (by omega)]
                rw [List.take_of_length_le (by simp; omega)]
            · rw [if_neg hstop] at hfull ⊢
              rw [matchWalk_append idx term now root fuel e.NextOffset [e.KvAddress] 0]
                at hfull
              cases wres : idx.matchWalk term now root 0 0 e.NextOffset [] 0 fuel with
              | error er =>
                rw [wres] at hfull
                exact absurd hfull (by simp [Except.map])
              | ok t2 =>
                rw [wres] at hfull
                simp only [Except.map] at hfull
                cases hfull
                rw [ih e.NextOffset (acc ++ [e.KvAddress]) skd t2 hskd hlim2 wres]
                rw [hge]
                simp only [List.drop_zero]
                rcases Nat.eq_zero_or_pos limit with h0 | h0
                · simp [pageTake, h0]
                · have h3 : 1 ≤ limit - acc.length := by
                    rcases hlim with hx | hx <;> omega
                  have h4 : limit - acc.length = (limit - (acc.length + 1)) + 1 := by
                    have := hlstop h0
                    rcases hlim with hx | hx <;> omega
                  rw [pageTake, pageTake, if_neg (by omega), if_neg (by omega)]
                  simp only [List.length_append, List.length_singleton]
                  rw [h4]
                  simp [List.take_succ_cons, List.append_assoc]

/-- The probe loop of Search forwards skip and limit only into the list
walk, so pagination commutes with the whole index search. -/
theorem Search_paged (idx : InvertedIndex) (hashFn : List Nat → Nat) (term : List Nat)
    (skip limit now : Nat) :
    ∀ blocks indexBlock full,
      idx.Search hashFn term 0 0 now indexBlock blocks = .ok full →
      idx.Search hashFn term skip limit now indexBlock blocks
        = .ok (pageTake limit 0 (full.drop skip)) := by
  intro blocks
  induction blocks with
  | zero =>
    intro ib full h
    rw [InvertedIndex.Search] at h
    cases h
    rw [InvertedIndex.Search]
    simp [pageTake]
  | succ rem ih =>
    intro ib full h
    rw [InvertedIndex.Search] at h ⊢
    cases hoff : GetIndexOffsetInNthBlock idx.NumberOfIndexBlocks idx.NetBlockSize
        (idx.getIndexOffset hashFn ((term.take (min term.length idx.MaxIndexKeyLen)))) ib with
    | error er =>
      rw [hoff] at h
      exact absurd h (by simp)
    | ok indexOffset =>
      rw [hoff] at h
      dsimp only at h ⊢
      cases hread : idx.readEntryAddress indexOffset with
      | error er =>
        rw [hread] at h
        exact absurd h (by simp)
      | ok addr =>
        rw [hread] at h
        dsimp only at h ⊢
        by_cases h0 : addr = 0
        · rw [if_pos h0] at h ⊢
          cases h
          simp [pageTake]
        · rw [if_neg h0] at h ⊢
          by_cases hbel : idx.addrBelongsToIndexKey addr
              (term.take (min term.length idx.MaxIndexKeyLen)) = true
          · rw [if_pos hbel] at h ⊢
            have hw := matchWalk_paged idx term now addr skip limit
              (idx.entries.length + 1) addr [] 0 full (Nat.zero_le _)
              (by rcases Nat.eq_zero_or_pos limit with hl | hl
                  · exact Or.inl hl
                  · exact Or.inr (by simpa using hl)) h
            rw [hw]
            simp
          · rw [if_neg hbel] at h ⊢
            exact ih _ _ h

/-- **C8 (amended).** At the search-index level pagination is exact: when
the unpaginated search succeeds, Search(term, skip, limit) returns
precisely the slice of Search(term, 0, 0) starting at offset `skip` -
all remaining elements when limit = 0, else the first `limit` of them.
(At the store level the claim fails, because tombstoned records are
dropped only AFTER pagination: see the counterexample.) -/
theorem search_pagination_slices_index_results (idx : InvertedIndex)
    (hashFn : List Nat → Nat) (term : List Nat) (skip limit now : Nat)
    (full : List Nat)
    (h : idx.searchFrom hashFn term 0 0 now = .ok full) :
    idx.searchFrom hashFn term skip limit now
      = .ok (if limit = 0 then full.drop skip else (full.drop skip).take limit) := by
  have hp := Search_paged idx hashFn term skip limit now idx.NumberOfIndexBlocks 0 full h
  rw [InvertedIndex.searchFrom, hp, pageTake, Nat.sub_zero]

/-- Closing the amended C8 theorem on a concrete index: the index built by
adding "aa" and "ab" resolves the term "a" to the kv addresses [124, 145],
and the paginated search with skip 1 returns exactly the promised slice. -/
theorem search_pagination_witness :
    (let hfw : List Nat → Nat :=
      fun key => if key = [97, 97] then 1 else if key = [97, 98] then 2 else 0
    (((NewStoreModel 1 0 5 24 2 24).Set hfw [97, 97] [120, 121] none
        1000).2.Set hfw [97, 98] [122, 123] none 1000).2.searchIndex.searchFrom
      hfw [97] 0 0 1000 = .ok [124, 145])
    ∧ (let hfw : List Nat → Nat :=
      fun key => if key = [97, 97] then 1 else if key = [97, 98] then 2 else 0
    (((NewStoreModel 1 0 5 24 2 24).Set hfw [97, 97] [120, 121] none
        1000).2.Set hfw [97, 98] [122, 123] none 1000).2.searchIndex.searchFrom
      hfw [97] 1 0 1000
      = .ok (if (0 : Nat) = 0 then ([124, 145] : List Nat).drop 1
             else (([124, 145] : List Nat).drop 1).take 0)) := by
  refine ⟨by decide, ?_⟩
  exact search_pagination_slices_index_results _ _ [97] 1 0 1000 [124, 145] (by decide)

/-! ### Claim C6: CollisionSaturation when every probe slot is saturated -/

theorem lookupA_none_of_lt {β : Type} (l : List (Nat × β)) (K : Nat)
    (h : ∀ p ∈ l, p.1 < K) : lookupA l K = none := by
  induction l with
  | nil => rfl
  | cons p rest ih =>
    rw [lookupA, if_neg]
    · exact ih fun q hq => h q (List.mem_cons_of_mem _ hq)
    · have := h p (List.mem_cons_self _ _)
      omega

theorem mem_eraseA {β : Type} (l : List (Nat × β)) (k : Nat) (p : Nat × β)
    (h : p ∈ eraseA l k) : p ∈ l :=
  List.mem_of_mem_filter h

theorem mem_putA {β : Type} (l : List (Nat × β)) (k : Nat) (v : β) (p : Nat × β)
    (h : p ∈ putA l k v) : p = (k, v) ∨ p ∈ l := by
  rcases List.mem_cons.mp h with h1 | h1
  · exact Or.inl h1
  · exact Or.inr (mem_eraseA _ _ _ h1)

theorem readAtPadded_length (file : List Nat) (off n : Nat) :
    (readAtPadded file off n).length = n := by
  rw [readAtPadded]
  rw [List.length_append, List.length_replicate]
  have h1 : ((file.drop off).take n).length ≤ n := by
    rw [List.length_take]
    exact Nat.min_le_left _ _
  omega

/-- The 8-byte slot value probe `i` of a Set/Get/Delete loop reads from
the file, for a key hashing to in-block slot `h`. -/
def probedSlot (file : List Nat) (bs h i : Nat) : Nat :=
  beVal (((readAtPadded file (HeaderSizeInBytes + bs * i) bs).drop (8 * h)).take 8)

/-- The probe loop of Set, run over index blocks whose probed slots all
hold non-zero addresses at or beyond the file size: every probe reads the
slot from the file (the index-buffer cache misses, and grows only with
the blocks paged in along the way), AddrBelongsToKey dismisses the
dangling address without touching the kv cache, and the loop exhausts all
blocks into ErrCollisionSaturation. -/
theorem scdbSetLoop_saturated (hashFn : List Nat → Nat) (k v : List Nat)
    (expiry bs num fsz : Nat) (file : List Nat) (hdr : DbFileHeader)
    (h8 : 8 ∣ bs) (h80 : 8 ≤ bs)
    (hhitems : hdr.ItemsPerIndexBlock = bs / 8)
    (hhnet : hdr.NetBlockSize = bs)
    (hhnum : hdr.NumberOfIndexBlocks = num)
    (hsat : ∀ i, i < num →
      probedSlot file bs (hashFn k % (bs / 8)) i ≠ 0
      ∧ fsz ≤ probedSlot file bs (hashFn k % (bs / 8)) i) :
    ∀ n i (st : Store),
      st.header = hdr →
      st.bufferPool.bufferSize = bs →
      st.bufferPool.keyValuesStartPoint = HeaderSizeInBytes + bs * num →
      st.bufferPool.file = file →
      st.bufferPool.FileSize = fsz →
      (∀ p ∈ st.bufferPool.indexBuffers, p.1 < HeaderSizeInBytes + bs * i) →
      i + n = num →
      (scdbSetLoop hashFn k v expiry
        (HeaderSizeInBytes + 8 * (hashFn k % (bs / 8))) i n st).1
        = .error (.collisionSaturation k) := by
  set h := hashFn k % (bs / 8) with hh
  obtain ⟨m, hm⟩ := h8
  have hm0 : 0 < m := by omega
  have hdiv8 : bs / 8 = m := by omega
  have hhm : h < m := by
    rw [hh, hdiv8]
    exact Nat.mod_lt _ hm0
  have hfit : 8 * h + 8 ≤ bs := by omega
  intro n
  induction n with
  | zero => intro i st _ _ _ _ _ _ _; rfl
  | succ n ih =>
    intro i st hhdr hbs hkvs hfile hfsz hkeys hin
    rw [scdbSetLoop]
    have hilt : i < num := by omega
    have hmul : bs * (i + 1) ≤ bs * num := Nat.mul_le_mul_left _ (by omega)
    have hmul2 : bs * (i + 1) = bs * i + bs := by ring
    have hoff : GetIndexOffsetInNthBlock st.header.NumberOfIndexBlocks
        st.header.NetBlockSize (HeaderSizeInBytes + 8 * h) i
        = .ok (HeaderSizeInBytes + 8 * h + bs * i) := by
      rw [GetIndexOffsetInNthBlock, if_neg]
      · rw [hhdr, hhnet]
      · rw [hhdr, hhnum]
        omega
    rw [hoff]
    dsimp only
    set A := HeaderSizeInBytes + 8 * h + bs * i with hAdef
    set L := HeaderSizeInBytes + bs * i with hLdef
    have hvalid : ValidateBounds A (A + IndexEntrySizeInBytes) HeaderSizeInBytes
        st.bufferPool.keyValuesStartPoint "out of index bounds" = .ok () := by
      rw [ValidateBounds, if_neg]
      rw [hkvs]
      show ¬ (A < HeaderSizeInBytes ∨ A + 8 > HeaderSizeInBytes + bs * num)
      rintro (h1 | h1) <;> omega
    have hblock : st.bufferPool.getBlockLeftOffset A HeaderSizeInBytes = L := by
      rw [BufferPool.getBlockLeftOffset, hbs]
      have h1 : A - HeaderSizeInBytes = 8 * h + bs * i := by omega
      rw [h1, Nat.add_mul_div_left _ _ (by omega : 0 < bs),
        Nat.div_eq_of_lt (by omega), hLdef]
      ring
    have hmiss : lookupA st.bufferPool.indexBuffers L = none :=
      lookupA_none_of_lt _ _ hkeys
    set newBufs := putA
      (if st.bufferPool.indexBuffers.length ≥ st.bufferPool.indexCapacity
        then eraseA st.bufferPool.indexBuffers
          (biggestLeftOffset st.bufferPool.indexBuffers)
        else st.bufferPool.indexBuffers) L
      (NewBuffer L (readAtPadded st.bufferPool.file L st.bufferPool.bufferSize)
        st.bufferPool.bufferSize) with hnewBufs
    have hri : st.bufferPool.ReadIndex A
        = (.ok (((readAtPadded st.bufferPool.file L st.bufferPool.bufferSize).drop
            (A - L)).take IndexEntrySizeInBytes),
           { st.bufferPool with indexBuffers := newBufs }) := by
      rw [BufferPool.ReadIndex, hvalid]
      dsimp only
      rw [hblock, hmiss]
      dsimp only
      rw [if_neg]
      rw [hbs]
      show ¬ bs < A - L + 8
      omega
    rw [hri]
    dsimp only
    have hAL : A - L = 8 * h := by omega
    have hslice : ((readAtPadded st.bufferPool.file L st.bufferPool.bufferSize).drop
        (A - L)).take IndexEntrySizeInBytes
        = ((readAtPadded file L bs).drop (8 * h)).take 8 := by
      rw [hAL, hfile, hbs]
      rfl
    have hslen : (((readAtPadded file L bs).drop (8 * h)).take 8).length = 8 := by
      rw [List.length_take, List.length_drop, readAtPadded_length]
      omega
    have hdecode : Uint64FromByteArray (((readAtPadded file L bs).drop (8 * h)).take 8)
        = .ok (probedSlot file bs h i) := by
      rw [Uint64FromByteArray, if_neg (by rw [hslen]; omega), probedSlot]
      rw [List.take_take, Nat.min_self]
    rw [hslice, hdecode]
    dsimp only
    obtain ⟨hnz, hge⟩ := hsat i hilt
    rw [if_neg hnz]
    have hbel : ({ st with bufferPool := { st.bufferPool with indexBuffers := newBufs } }
          : Store).bufferPool.AddrBelongsToKey (probedSlot file bs h i) k
        = (.ok false, { st.bufferPool with indexBuffers := newBufs }) := by
      rw [BufferPool.AddrBelongsToKey, if_pos]
      show probedSlot file bs h i ≥ st.bufferPool.FileSize
      rw [hfsz]
      exact hge
    rw [hbel]
    dsimp only
    rw [if_neg (by simp : ¬ false = true)]
    refine ih (i + 1) _ hhdr hbs hkvs hfile hfsz ?_ (by omega)
    intro p hp
    rcases mem_putA _ _ _ _ hp with h1 | h1
    · rw [h1]
      show L < HeaderSizeInBytes + bs * (i + 1)
      omega
    · have h2 : p ∈ st.bufferPool.indexBuffers := by
        by_cases hc : st.bufferPool.indexBuffers.length ≥ st.bufferPool.indexCapacity
        · rw [if_pos hc] at h1
          exact mem_eraseA _ _ _ h1
        · rw [if_neg hc] at h1
          exact h1
      have h3 := hkeys p h2
      omega

/-- **C6 (amended).** Set(k, v, ttl) does return CollisionSaturation(k)
when every one of the probe slots for k is saturated - here in the form
of non-zero addresses at or beyond the file size, which AddrBelongsToKey
rejects.  The converse direction of the claimed equivalence is false (see
the counterexample): Set also returns CollisionSaturation for a free
probe slot when the search-index Add for one of k's prefixes is
saturated, the error being CollisionSaturation(prefix). -/
theorem set_collision_when_probes_saturated (s : Store) (hashFn : List Nat → Nat)
    (k v : List Nat) (ttl : Option Nat) (now bs num : Nat)
    (hbs : s.bufferPool.bufferSize = bs) (h8 : 8 ∣ bs) (h80 : 8 ≤ bs)
    (hitems : s.header.ItemsPerIndexBlock = bs / 8)
    (hnet : s.header.NetBlockSize = bs)
    (hnum : s.header.NumberOfIndexBlocks = num)
    (hkvs : s.bufferPool.keyValuesStartPoint = HeaderSizeInBytes + bs * num)
    (hib : s.bufferPool.indexBuffers = [])
    (hsat : ∀ i, i < num →
      probedSlot s.bufferPool.file bs (hashFn k % (bs / 8)) i ≠ 0
      ∧ s.bufferPool.FileSize
          ≤ probedSlot s.bufferPool.file bs (hashFn k % (bs / 8)) i) :
    (s.Set hashFn k v ttl now).1 = .error (.collisionSaturation k) := by
  rw [Store.Set.eq_def]
  have hinit : s.header.GetIndexOffset hashFn k
      = HeaderSizeInBytes + 8 * (hashFn k % (bs / 8)) := by
    rw [DbFileHeader.GetIndexOffset, GetHash, hitems]
    show HeaderSizeInBytes + hashFn k % (bs / 8) * 8
      = HeaderSizeInBytes + 8 * (hashFn k % (bs / 8))
    ring
  dsimp only
  rw [hinit, hnum]
  refine scdbSetLoop_saturated hashFn k v _ bs num s.bufferPool.FileSize
    s.bufferPool.file s.header h8 h80 hitems hnet hnum hsat num 0 s rfl hbs ?_ rfl rfl
    ?_ (by omega)
  · rw [hkvs]
  · intro p hp
    rw [hib] at hp
    cases hp

/-- A store state whose single probe slot holds the dangling address 200,
past the 108-byte file: the fixture closing the saturation theorem. -/
def saturatedStoreFixture : Store :=
  let s0 := NewStoreModel 1 0 5 8 2 8
  let bp := s0.bufferPool
  let bp2 := { bp with file := writeAt bp.file 100 (Uint64ToByteArray 200) }
  { s0 with bufferPool := bp2 }

theorem set_collision_when_probes_saturated_witness :
    (saturatedStoreFixture.Set (fun _ => 0) [97] [120] none 1000).1
      = .error (.collisionSaturation [97]) := by
  refine set_collision_when_probes_saturated saturatedStoreFixture (fun _ => 0)
    [97] [120] none 1000 8 1 (by decide) (by decide) (by decide) (by decide)
    (by decide) (by decide) (by decide) (by decide) ?_
  decide

/-! ### Claim C1 (amended): Set then Get on a fresh store -/

theorem drop_concat_add (l r : List Nat) (n t : Nat) (h : l.length = n) :
    (l ++ r).drop (n + t) = r.drop t := by
  subst h
  induction l with
  | nil => rw [List.nil_append, List.length_nil, Nat.zero_add]
  | cons a l ih =>
    rw [List.cons_append, List.length_cons]
    rw [show l.length + 1 + t = l.length + t + 1 from by omega]
    rw [List.drop_succ_cons]
    exact ih

theorem writeAt_append (f d : List Nat) : writeAt f f.length d = f ++ d := by
  rw [writeAt]
  rw [show max f.length (f.length + d.length) - f.length = d.length from by omega]
  rw [List.take_left]
  rw [List.drop_eq_nil_of_le
    (le_of_eq (by rw [List.length_append, List.length_replicate]))]
  rw [List.append_nil]

theorem writeAt_drop_high (f d : List Nat) (off m : Nat)
    (h1 : off + d.length ≤ m) (h2 : off + d.length ≤ f.length) :
    (writeAt f off d).drop m = f.drop m := by
  rw [writeAt]
  rw [show max f.length (off + d.length) - f.length = 0 from by omega]
  rw [List.replicate_zero, List.append_nil, List.append_assoc]
  calc (f.take off ++ (d ++ f.drop (off + d.length))).drop m
      = (f.take off ++ (d ++ f.drop (off + d.length))).drop
          ((f.take off).length + (m - off)) := by
        rw [List.length_take]
        congr 1
        omega
    _ = (d ++ f.drop (off + d.length)).drop (m - off) := drop_concat_add _ _ _ _ rfl
    _ = (d ++ f.drop (off + d.length)).drop (d.length + (m - off - d.length)) := by
        congr 1
        omega
    _ = (f.drop (off + d.length)).drop (m - off - d.length) := drop_concat_add _ _ _ _ rfl
    _ = f.drop (off + d.length + (m - off - d.length)) := List.drop_drop _ _ _
    _ = f.drop m := by congr 1; omega

/-- **C1 (amended).** Set(k, v) with no TTL followed immediately by Get(k)
returns exactly v on a freshly created store whose bufferSize is a
multiple of 8 and strictly exceeds the serialized record size
17 + len(k) + len(v).  (Without the record-fits-in-a-buffer condition the
round trip fails - see the counterexample - because Get pages a single
bufferSize window in at the record's address.) -/
theorem set_then_get_on_fresh_store (s : Store) (hashFn : List Nat → Nat)
    (k v : List Nat) (now bs num : Nat)
    (hbs : s.bufferPool.bufferSize = bs) (h8 : 8 ∣ bs) (h80 : 8 ≤ bs)
    (hitems : s.header.ItemsPerIndexBlock = bs / 8)
    (hnum : s.header.NumberOfIndexBlocks = num) (hnum1 : 1 ≤ num)
    (hkvs : s.bufferPool.keyValuesStartPoint = HeaderSizeInBytes + bs * num)
    (hib : s.bufferPool.indexBuffers = [])
    (hkb : s.bufferPool.kvBuffers = [])
    (hfile : s.bufferPool.file.length = HeaderSizeInBytes + bs * num)
    (hzero : s.bufferPool.file.drop HeaderSizeInBytes = List.replicate (bs * num) 0)
    (hfsz : s.bufferPool.FileSize = HeaderSizeInBytes + bs * num)
    (hrec : 17 + k.length + v.length < bs)
    (hU32 : 17 + k.length + v.length < U32)
    (hkvU : HeaderSizeInBytes + bs * num < U64)
    (hok : (s.Set hashFn k v none now).1 = .ok ()) :
    ((s.Set hashFn k v none now).2.Get hashFn k now).1 = .ok (some v) := by
  obtain ⟨m, hm⟩ := h8
  have hm0 : 0 < m := by omega
  have hdiv8 : bs / 8 = m := by omega
  set h := hashFn k % (bs / 8) with hh
  have hhm : h < m := by rw [hh, hdiv8]; exact Nat.mod_lt _ hm0
  have hfit : 8 * h + 8 ≤ bs := by omega
  have hKbs : bs ≤ bs * num := by
    have h1 := Nat.mul_le_mul_left bs hnum1
    omega
  obtain ⟨n', hn'⟩ : ∃ n', num = n' + 1 := ⟨num - 1, by omega⟩
  have hsub : HeaderSizeInBytes + 8 * h - HeaderSizeInBytes = 8 * h := by omega
  set e := NewKeyValueEntry k v 0 with he
  set K := HeaderSizeInBytes + bs * num with hK
  set recB := e.AsBytes with hrecB
  have hlrecB : recB.length = 17 + k.length + v.length := by
    rw [hrecB, he]
    exact KeyValueEntry.length_asBytes _
  have hkvsK : s.bufferPool.keyValuesStartPoint = K := by rw [hK]; exact hkvs
  have hfileK : s.bufferPool.file.length = K := by rw [hK]; exact hfile
  have hfszK : s.bufferPool.FileSize = K := by rw [hK]; exact hfsz
  have hkvUK : K < U64 := by rw [hK]; exact hkvU
  set u64 := Uint64ToByteArray K with hu64
  have hulen : u64.length = 8 := by rw [hu64]; rfl
  set buf0 : Buffer := { capacity := bs, Data := List.replicate bs 0, LeftOffset := HeaderSizeInBytes, RightOffset := HeaderSizeInBytes + bs } with hbuf0
  set patched := List.replicate (8 * h) (0 : Nat) ++ u64 ++ List.replicate (bs - (8 * h + 8)) (0 : Nat) with hpatched
  set buf1 : Buffer := { capacity := bs, Data := patched, LeftOffset := HeaderSizeInBytes, RightOffset := HeaderSizeInBytes + bs } with hbuf1
  have hplen : patched.length = bs := by
    rw [hpatched]
    rw [List.length_append, List.length_append, List.length_replicate,
        List.length_replicate, hulen]
    omega
  set file2 := writeAt (s.bufferPool.file ++ recB) (HeaderSizeInBytes + 8 * h) u64 with hf2
  set bp1p : BufferPool := { s.bufferPool with indexBuffers := [(HeaderSizeInBytes, buf0)] } with hbp1p
  set bpA : BufferPool := { s.bufferPool with indexBuffers := [(HeaderSizeInBytes, buf0)], file := s.bufferPool.file ++ recB, FileSize := K + recB.length } with hbpA
  set bpB : BufferPool := { s.bufferPool with indexBuffers := [(HeaderSizeInBytes, buf1)], file := file2, FileSize := K + recB.length } with hbpB
  have hinit : s.header.GetIndexOffset hashFn k = HeaderSizeInBytes + 8 * h := by
    rw [DbFileHeader.GetIndexOffset, GetHash, hitems, ← hh]
    show HeaderSizeInBytes + h * 8 = HeaderSizeInBytes + 8 * h
    omega
  have hoff : GetIndexOffsetInNthBlock s.header.NumberOfIndexBlocks s.header.NetBlockSize
      (HeaderSizeInBytes + 8 * h) 0 = .ok (HeaderSizeInBytes + 8 * h) := by
    rw [GetIndexOffsetInNthBlock, if_neg]
    · rw [Nat.mul_zero, Nat.add_zero]
    · rw [hnum]
      omega
  have hvalid : ValidateBounds (HeaderSizeInBytes + 8 * h)
      (HeaderSizeInBytes + 8 * h + IndexEntrySizeInBytes) HeaderSizeInBytes K
      "out of index bounds" = .ok () := by
    rw [ValidateBounds, if_neg]
    rw [hK]
    show ¬ (HeaderSizeInBytes + 8 * h < HeaderSizeInBytes
      ∨ HeaderSizeInBytes + 8 * h + 8 > HeaderSizeInBytes + bs * num)
    rintro (h1 | h1) <;> omega
  have hvalidU : ValidateBounds (HeaderSizeInBytes + 8 * h)
      (HeaderSizeInBytes + 8 * h + 8) HeaderSizeInBytes K
      "data is outside the index bounds" = .ok () := by
    rw [ValidateBounds, if_neg]
    rw [hK]
    show ¬ (HeaderSizeInBytes + 8 * h < HeaderSizeInBytes
      ∨ HeaderSizeInBytes + 8 * h + 8 > HeaderSizeInBytes + bs * num)
    rintro (h1 | h1) <;> omega
  have hvalidR : ValidateBounds (HeaderSizeInBytes + 8 * h)
      (HeaderSizeInBytes + 8 * h + IndexEntrySizeInBytes) HeaderSizeInBytes
      (HeaderSizeInBytes + bs) "address out of bounds" = .ok () := by
    rw [ValidateBounds, if_neg]
    show ¬ (HeaderSizeInBytes + 8 * h < HeaderSizeInBytes
      ∨ HeaderSizeInBytes + 8 * h + 8 > HeaderSizeInBytes + bs)
    rintro (h1 | h1) <;> omega
  have hvalidP : ValidateBounds (HeaderSizeInBytes + 8 * h)
      (HeaderSizeInBytes + 8 * h + 8) HeaderSizeInBytes
      (HeaderSizeInBytes + bs) "address out of bound" = .ok () := by
    rw [ValidateBounds, if_neg]
    show ¬ (HeaderSizeInBytes + 8 * h < HeaderSizeInBytes
      ∨ HeaderSizeInBytes + 8 * h + 8 > HeaderSizeInBytes + bs)
    rintro (h1 | h1) <;> omega
  have hdata0 : readAtPadded s.bufferPool.file HeaderSizeInBytes bs
      = List.replicate bs 0 := by
    rw [readAtPadded]
    rw [hzero, List.take_replicate, List.length_replicate]
    rw [Nat.min_eq_left hKbs]
    rw [← List.replicate_add]
    rw [show bs + (bs - bs) = bs from by omega]
  have hmiss : lookupA s.bufferPool.indexBuffers HeaderSizeInBytes = none := by
    rw [hib]
    rfl
  have hnb : NewBuffer HeaderSizeInBytes (List.replicate bs 0) bs = buf0 := by
    rw [hbuf0, NewBuffer, List.length_replicate, Nat.min_self, List.take_replicate,
        Nat.min_self]
  have hri : s.bufferPool.ReadIndex (HeaderSizeInBytes + 8 * h)
      = (.ok (List.replicate 8 0), bp1p) := by
    rw [hbp1p, BufferPool.ReadIndex]
    rw [hkvsK, hvalid]
    dsimp only
    rw [BufferPool.getBlockLeftOffset, hbs, hsub]
    rw [Nat.div_eq_of_lt (show 8 * h < bs from by omega), Nat.zero_mul, Nat.zero_add]
    rw [hsub]
    rw [hmiss]
    dsimp only
    rw [hib]
    rw [show eraseA ([] : List (Nat × Buffer)) (biggestLeftOffset []) = [] from rfl]
    rw [ite_self]
    rw [hdata0, hnb]
    rw [show putA ([] : List (Nat × Buffer)) HeaderSizeInBytes buf0
      = [(HeaderSizeInBytes, buf0)] from rfl]
    rw [if_neg (show ¬ bs < 8 * h + IndexEntrySizeInBytes from
      show ¬ bs < 8 * h + 8 from by omega)]
    rw [List.drop_replicate, List.take_replicate]
    rw [show min IndexEntrySizeInBytes (bs - 8 * h) = 8 from
      Nat.min_eq_left (show (8 : Nat) ≤ bs - 8 * h from by omega)]
    rw [hkvsK]
  have hap : bp1p.Append recB = (K, bpA) := by
    rw [hbp1p, hbpA, BufferPool.Append]
    dsimp only
    rw [hkb, hfszK]
    rw [poolAppendLoop]
    dsimp only
    rw [show writeAt s.bufferPool.file K recB = s.bufferPool.file ++ recB from by
      rw [← hfileK]; exact writeAt_append _ _]
  have hrep : buf0.Replace (HeaderSizeInBytes + 8 * h) u64 = .ok buf1 := by
    rw [hbuf0, hbuf1, Buffer.Replace]
    dsimp only
    rw [hulen, hvalidP]
    dsimp only
    rw [hsub]
    rw [List.length_replicate]
    rw [if_neg (show ¬ bs < 8 * h + 8 from by omega)]
    rw [List.take_replicate, List.drop_replicate]
    rw [Nat.min_eq_left (show 8 * h ≤ bs from by omega)]
  have hui : bpA.UpdateIndex (HeaderSizeInBytes + 8 * h) u64 = .ok bpB := by
    rw [hbpA, hbpB, BufferPool.UpdateIndex]
    dsimp only
    rw [hulen, hkvsK, hvalidU]
    dsimp only
    rw [BufferPool.getBlockLeftOffset]
    dsimp only
    rw [hbs, hsub]
    rw [Nat.div_eq_of_lt (show 8 * h < bs from by omega), Nat.zero_mul, Nat.zero_add]
    rw [lookupA, if_pos rfl]
    dsimp only
    rw [hrep]
    dsimp only
    rw [show putA [(HeaderSizeInBytes, buf0)] HeaderSizeInBytes buf1
      = [(HeaderSizeInBytes, buf1)] from rfl]
  have hra : buf1.ReadAt (HeaderSizeInBytes + 8 * h) IndexEntrySizeInBytes = .ok u64 := by
    rw [hbuf1, Buffer.ReadAt]
    dsimp only
    rw [hvalidR]
    dsimp only
    rw [hsub, hplen]
    rw [if_neg (show ¬ bs < 8 * h + IndexEntrySizeInBytes from
      show ¬ bs < 8 * h + 8 from by omega)]
    rw [hpatched, List.append_assoc]
    rw [drop_concat_exact _ _ _ (by rw [List.length_replicate])]
    rw [take_concat_exact _ _ _ (show u64.length = IndexEntrySizeInBytes from hulen)]
  have hri2 : bpB.ReadIndex (HeaderSizeInBytes + 8 * h) = (.ok u64, bpB) := by
    rw [hbpB, BufferPool.ReadIndex]
    dsimp only
    rw [hkvsK, hvalid]
    dsimp only
    rw [BufferPool.getBlockLeftOffset]
    dsimp only
    rw [hbs, hsub]
    rw [Nat.div_eq_of_lt (show 8 * h < bs from by omega), Nat.zero_mul, Nat.zero_add]
    rw [lookupA, if_pos rfl]
    dsimp only
    rw [hra]
  have hne0 : ¬ (u64 = Uint64ToByteArray 0) := by
    rw [hu64]
    intro heq
    have h1 := congrArg beVal heq
    rw [beVal_u64, beVal_u64, Nat.zero_mod, Nat.mod_eq_of_lt hkvUK] at h1
    rw [hK] at h1
    omega
  have hKne0 : ¬ (K = 0) := by
    intro h1
    rw [hK] at h1
    omega
  have hdecK : Uint64FromByteArray u64 = .ok K := by
    rw [hu64]
    exact Uint64From_To K hkvUK
  have hdropK : file2.drop K = recB := by
    rw [hf2]
    rw [writeAt_drop_high]
    · exact drop_concat_exact _ _ _ hfileK
    · rw [hulen, hK]
      omega
    · rw [hulen, List.length_append, hfileK, hK]
      omega
  have hdata2 : readAtPadded file2 K bs = recB ++ List.replicate (bs - recB.length) 0 := by
    rw [readAtPadded]
    rw [hdropK]
    rw [List.take_of_length_le (show recB.length ≤ bs from by rw [hlrecB]; omega)]
  have hwf : KVWF e := by
    rw [he]
    refine ⟨?_, ?_, hU32, ?_⟩
    · show k.length % U32 = k.length
      exact Nat.mod_eq_of_lt (by omega)
    · show (k.length % U32 + KeyValueMinSizeInBytes + v.length % U32) % U32
        = 17 + k.length + v.length
      rw [Nat.mod_eq_of_lt (show k.length < U32 from by omega),
          Nat.mod_eq_of_lt (show v.length < U32 from by omega)]
      have hsum : k.length + KeyValueMinSizeInBytes + v.length
          = 17 + k.length + v.length := by
        show k.length + 17 + v.length = 17 + k.length + v.length
        omega
      rw [hsum]
      exact Nat.mod_eq_of_lt hU32
    · show (0 : Nat) < 2 ^ 64
      norm_num
  have hnz : 0 < e.Value.length + (List.replicate (bs - recB.length) (0 : Nat)).length := by
    rw [List.length_replicate]
    have h1 : recB.length < bs := by rw [hlrecB]; omega
    omega
  have hex : ExtractKeyValueEntryFromByteArray
      (recB ++ List.replicate (bs - recB.length) 0) 0 = .ok e := by
    have h0 := extract_kv_concat [] (List.replicate (bs - recB.length) 0) e hwf hnz
    simpa only [List.nil_append, List.length_nil, hrecB] using h0
  have hcondT : (decide (e.Key = k) && !(IsExpired e.Expiry now) && !e.IsDeleted) = true := by
    rw [he]
    show (decide (k = k) && !(IsExpired 0 now) && !false) = true
    simp [IsExpired]
  have hgvE : bpB.GetValue K k now
      = (.ok (some e), { s.bufferPool with kvBuffers := [NewBuffer K recB bs], indexBuffers := [(HeaderSizeInBytes, buf1)], file := file2, FileSize := K + recB.length }) := by
    rw [hbpB, BufferPool.GetValue]
    rw [if_neg hKne0]
    dsimp only
    rw [hkb]
    rw [findKvBuffer]
    dsimp only
    rw [List.dropLast_nil, ite_self]
    rw [hbs, hdata2]
    rw [show bytesReadAt file2 K bs = recB.length from by
      rw [bytesReadAt, hdropK,
        List.take_of_length_le (show recB.length ≤ bs from by rw [hlrecB]; omega)]]
    rw [take_concat_exact _ _ _ rfl]
    rw [hex]
    dsimp only
    rw [if_pos hcondT]
  rw [Store.Set.eq_def]
  dsimp only
  rw [hinit, hnum, hn']
  rw [scdbSetLoop]
  rw [hoff]
  dsimp only
  rw [hri]
  dsimp only
  rw [show Uint64FromByteArray (List.replicate 8 0) = .ok 0 from by decide]
  dsimp only
  rw [if_pos rfl]
  rw [Store.setWrite]
  dsimp only
  rw [← he, ← hrecB]
  rw [hap]
  dsimp only
  rw [← hu64]
  rw [hui]
  dsimp only
  rcases hadd : s.searchIndex.Add hashFn k K 0 with ⟨r, si2⟩
  dsimp only
  rw [Store.Get]
  dsimp only
  rw [hinit, hnum, hn']
  rw [scdbGetLoop]
  dsimp only
  rw [hoff]
  dsimp only
  rw [hri2]
  dsimp only
  rw [if_neg hne0]
  rw [hdecK]
  dsimp only
  rw [hgvE]
  dsimp only
  rw [he]
  rfl

/-- **C1 (amended), witness.** The round trip on a concrete fresh store
with bufferSize 24: Set("a", "x") then Get("a") returns "x". -/
theorem set_then_get_on_fresh_store_witness :
    (((NewStoreModel 1 0 5 24 2 8).Set (fun _ => 0) [97] [120] none 1000).2.Get
        (fun _ => 0) [97] 1000).1 = .ok (some [120]) :=
  set_then_get_on_fresh_store (NewStoreModel 1 0 5 24 2 8) (fun _ => 0) [97] [120]
    1000 24 1 (by decide) (by decide) (by decide) (by decide) (by decide) (by decide)
    (by decide) (by decide) (by decide) (by decide) (by decide) (by decide)
    (by decide) (by decide) (by decide) (by decide)

end Scdb
